import Mathlib

/-!
Shallow embedding of the balance-refresh and blockchain-sync state machines of
the multicoin-wallet operator layer, translated from
src/gui/static/src/app/services/coin-specific/eth/eth-node-operator.ts and
src/gui/static/src/app/services/coin-specific/eth/eth-blockchain-operator.ts.

Coin amounts are modelled as rationals, matching the arbitrary-precision
decimal arithmetic of the BigNumber values used in the source.  Node
communication is modelled as an oracle function from RPC requests to decoded
results; the hex wire codec used by the client is embedded separately below.
-/

namespace MulticoinWallet

/-- Hex digit character for a value below 16, lowercase, as produced by
BigNumber.toString(16). -/
def hexDigitChar (n : Nat) : Char :=
  if n < 10 then Char.ofNat (48 + n) else Char.ofNat (87 + n)

/-- Hex digits of a positive number, most significant first; empty for 0 or
when the fuel is exhausted (the fuel is structural bookkeeping only: a first
argument of n more than suffices since the value shrinks by a factor of 16
each round). -/
def natToHexCore : Nat → Nat → List Char
  | 0, _ => []
  | fuel + 1, n =>
    if n = 0 then []
    else natToHexCore fuel (n / 16) ++ [hexDigitChar (n % 16)]

/-- Lowercase hex encoding of a natural number, as BigNumber.toString(16)
renders nonnegative integers. -/
def natToHex (n : Nat) : String :=
  if n = 0 then "0" else String.mk (natToHexCore n n)

/-- Value of one hex digit character, accepting both cases; none for other
characters. -/
def hexCharVal? (c : Char) : Option Nat :=
  if 48 ≤ c.toNat ∧ c.toNat ≤ 57 then some (c.toNat - 48)
  else if 97 ≤ c.toNat ∧ c.toNat ≤ 102 then some (c.toNat - 87)
  else if 65 ≤ c.toNat ∧ c.toNat ≤ 70 then some (c.toNat - 55)
  else none

/-- Decode a hex string to a natural number; none when the string is empty or
holds a character that is not a hex digit, the cases in which the BigNumber
constructor with base 16 yields NaN. -/
def hexToNat? (s : String) : Option Nat :=
  if s.isEmpty then none
  else s.data.foldl
    (fun acc c => acc.bind fun a => (hexCharVal? c).map fun v => a * 16 + v)
    (some 0)

section JsMap

variable {κ α : Type} [DecidableEq κ]

/-- JavaScript Map.set: replace the value in place when the key exists,
keeping its position, else append the new entry at the end. -/
def jsMapSet (m : List (κ × α)) (k : κ) (v : α) : List (κ × α) :=
  match m with
  | [] => [(k, v)]
  | (k2, v2) :: rest => if k2 = k then (k, v) :: rest else (k2, v2) :: jsMapSet rest k v

/-- JavaScript Map.get: the value stored at the key, if any. -/
def jsMapGet? (m : List (κ × α)) (k : κ) : Option α :=
  match m with
  | [] => none
  | (k2, v2) :: rest => if k2 = k then some v2 else jsMapGet? rest k

end JsMap

/-- One RPC request sent through EthApiService.callRpcMethod: a method name
and positional string parameters.  A parameter of none models the JavaScript
undefined value (which is what reaches the transport when the client reads a
missing array element). -/
structure RpcRequest where
  method : String
  params : List (Option String)
deriving DecidableEq, Repr

/-- The node, as seen by the operator: each request either fails or yields
the decoded nonnegative integer quantity of the reply (the hex wire codec,
embedded above as natToHex and hexToNat?, cancels against the node encoding
and is verified separately with processSyncingResult). -/
abbrev Oracle := RpcRequest → Except Unit Nat

/-- The per-coin parameters the two operators read: Coin.isLocal,
Coin.nodeUrl, Coin.confirmationsNeeded and EthCoinConfig.decimals. -/
structure CoinConfig where
  isLocal : Bool
  nodeUrl : String
  confirmationsNeeded : Nat
  decimals : Nat

/-- Balance of an address, for internal use (class AddressBalance). -/
structure AddressBalance where
  current : ℚ := 0
  predicted : ℚ := 0
deriving DecidableEq, Repr

/-- Map from addresses to their balances, as built by recursivelyGetBalances.
The key none models the undefined key produced on an empty address list. -/
abbrev AddrMap := List (Option String × AddressBalance)

/-- Balance of a wallet, for internal use (class WalletBalance). -/
structure WalletBalance where
  current : ℚ := 0
  predicted : ℚ := 0
  addresses : AddrMap := []
deriving DecidableEq, Repr

/-- Map from wallet ids to balances (savedBalanceData and
temporalSavedBalanceData). -/
abbrev WBMap := List (String × WalletBalance)

/-- An address entry of a published wallet: its string and its coin balance
(AddressWithBalance fields read by this operator). -/
structure AddressWithBalance where
  address : String
  coins : ℚ
deriving DecidableEq, Repr

/-- A published wallet entry (WalletWithBalance fields read by this
operator). -/
structure WalletWithBalance where
  id : String
  label : String
  coins : ℚ
  addresses : List AddressWithBalance
deriving DecidableEq, Repr

/-- An address of a stored wallet (AddressBase). -/
structure AddressBase where
  address : String
deriving DecidableEq, Repr

/-- A stored wallet as provided by the wallets service (WalletBase). -/
structure WalletBase where
  id : String
  label : String
  addresses : List AddressBase
deriving DecidableEq, Repr

/-- Modelled from the spec: walletWithBalanceFromBase of
wallet-objects.ts is not under src; per the spec the quick pass rebuilds the
wallet-with-balance list from the latest wallet set, so the conversion copies
the structural fields and starts every balance at zero. -/
def walletWithBalanceFromBase (w : WalletBase) : WalletWithBalance :=
  { id := w.id
    label := w.label
    coins := 0
    addresses := w.addresses.map fun a => { address := a.address, coins := 0 } }

/-- The mutable fields of EthBalanceAndOutputsOperator that the refresh state
machine reads and writes. -/
structure OperatorState where
  walletsWithBalanceList : Option (List WalletWithBalance)
  savedBalanceData : WBMap
  temporalSavedBalanceData : WBMap
  hasPendingTransactions : Bool
  firstFullUpdateMade : Bool
  hadErrorRefreshingBalance : Bool
deriving DecidableEq, Repr

/-- The initial state of a freshly constructed operator. -/
def initialOperatorState : OperatorState :=
  { walletsWithBalanceList := none
    savedBalanceData := []
    temporalSavedBalanceData := []
    hasPendingTransactions := false
    firstFullUpdateMade := false
    hadErrorRefreshingBalance := false }

/-- The eth_getBalance request for the pending balance of an address (the
address is none when the client read a missing array element). -/
def pendingBalanceRequest (addr : Option String) : RpcRequest :=
  { method := "eth_getBalance", params := [addr, some "pending"] }

/-- The block tag used for the confirmed-balance query: the current block
minus (confirmationsNeeded - 1), floored at 0, hex encoded with an 0x
prefix. -/
def confirmedBlockTag (currentBlockNumber confirmationsNeeded : Nat) : String :=
  let blockForLastConfirmedBalance : Int :=
    (currentBlockNumber : Int) - ((confirmationsNeeded : Int) - 1)
  let clamped : Int :=
    if blockForLastConfirmedBalance < 0 then 0 else blockForLastConfirmedBalance
  "0x" ++ natToHex clamped.toNat

/-- The eth_getBalance request for the balance of an address at a given block
tag. -/
def confirmedBalanceRequest (addr : Option String) (tag : String) : RpcRequest :=
  { method := "eth_getBalance", params := [addr, some tag] }

/-- The eth_blockNumber request. -/
def blockNumberRequest : RpcRequest :=
  { method := "eth_blockNumber", params := [] }

/-- One pass of recursivelyGetBalances per address still to process: request
the pending balance and the balance at the confirmed block tag of the first
pending address, convert both from the smallest unit by dividing by 10 to
the power of the declared decimals, store the pair in the map, and continue
while addresses remain.  Returns the issued requests with the outcome. -/
def recursivelyGetBalancesAux (oracle : Oracle) (coin : CoinConfig)
    (currentBlockNumber : Nat) :
    List (Option String) → AddrMap → List RpcRequest × Except Unit AddrMap
  | [], currentElements => ([], .ok currentElements)
  | currentAddress :: remaining, currentElements =>
    let decimalsCorrector : ℚ := (10 : ℚ) ^ coin.decimals
    let pendingReq := pendingBalanceRequest currentAddress
    match oracle pendingReq with
    | .error _ => ([pendingReq], .error ())
    | .ok rawPending =>
      let predictedBalance : ℚ := (rawPending : ℚ) / decimalsCorrector
      let confirmedReq := confirmedBalanceRequest currentAddress
        (confirmedBlockTag currentBlockNumber coin.confirmationsNeeded)
      match oracle confirmedReq with
      | .error _ => ([pendingReq, confirmedReq], .error ())
      | .ok rawCurrent =>
        let newElements := jsMapSet currentElements currentAddress
          { current := (rawCurrent : ℚ) / decimalsCorrector, predicted := predictedBalance }
        match remaining with
        | [] => ([pendingReq, confirmedReq], .ok newElements)
        | a2 :: rest2 =>
          let rest := recursivelyGetBalancesAux oracle coin currentBlockNumber
            (a2 :: rest2) newElements
          (pendingReq :: confirmedReq :: rest.1, rest.2)

/-- Embedding of EthBalanceAndOutputsOperator.recursivelyGetBalances.  The
source reads the last element of the array (the undefined value when the
array is empty), requests its two balances, and pops the array before
recursing while more than one address remains; the embedding runs the same
passes as a structural recursion over the reversed address list, with the
single undefined pass for an empty list. -/
def recursivelyGetBalances (oracle : Oracle) (coin : CoinConfig)
    (addresses : List String) (currentBlockNumber : Nat) (currentElements : AddrMap) :
    List RpcRequest × Except Unit AddrMap :=
  recursivelyGetBalancesAux oracle coin currentBlockNumber
    (if addresses.isEmpty then [none] else addresses.reverse.map some) currentElements

/-- The aggregation step of retrieveWalletBalance: walk the addresses of the
wallet, take each balance from the fetched map (zero when absent), store it
in the WalletBalance map and add it to the wallet totals. -/
def computeWalletBalance (wallet : WalletWithBalance) (result : AddrMap) : WalletBalance :=
  wallet.addresses.foldl
    (fun balance address =>
      let addressBalance := (jsMapGet? result (some address.address)).getD {}
      { current := balance.current + addressBalance.current
        predicted := balance.predicted + addressBalance.predicted
        addresses := jsMapSet balance.addresses (some address.address) addressBalance })
    {}

/-- The final step of retrieveWalletBalance: write the predicted balances
into the wallet object, using zero for addresses missing from the balance
map. -/
def applyBalanceToWallet (wallet : WalletWithBalance) (balance : WalletBalance) :
    WalletWithBalance :=
  { wallet with
    coins := balance.predicted
    addresses := wallet.addresses.map fun address =>
      match jsMapGet? balance.addresses (some address.address) with
      | some ab => { address with coins := ab.predicted }
      | none => { address with coins := 0 } }

/-- Embedding of EthBalanceAndOutputsOperator.retrieveWalletBalance.  In
quick mode the balance comes from savedBalanceData (zero when the wallet id
is absent) and the returned flag is the current hasPendingTransactions
value; in network mode the node is queried and the flag tells whether the
aggregated current and predicted balances differ.  The balance is recorded
in the temporal map under the wallet id in both modes. -/
def retrieveWalletBalance (oracle : Oracle) (coin : CoinConfig)
    (savedBalanceData : WBMap) (hasPendingValue : Bool) (temporal : WBMap)
    (wallet : WalletWithBalance) (useSavedBalanceData : Bool) :
    List RpcRequest × Except Unit (WalletWithBalance × Bool × WBMap) :=
  if useSavedBalanceData then
    let balance := (jsMapGet? savedBalanceData wallet.id).getD {}
    ([], .ok (applyBalanceToWallet wallet balance, hasPendingValue,
      jsMapSet temporal wallet.id balance))
  else
    match oracle blockNumberRequest with
    | .error _ => ([blockNumberRequest], .error ())
    | .ok currentBlockNumber =>
      let addresses := wallet.addresses.map (·.address)
      let res := recursivelyGetBalances oracle coin addresses currentBlockNumber []
      match res.2 with
      | .error _ => (blockNumberRequest :: res.1, .error ())
      | .ok m =>
        let balance := computeWalletBalance wallet m
        (blockNumberRequest :: res.1,
          .ok (applyBalanceToWallet wallet balance,
            decide (¬ balance.current = balance.predicted),
            jsMapSet temporal wallet.id balance))

/-- The forkJoin over the wallet list: retrieve every wallet balance,
threading the temporal map; any request failure fails the whole pass. -/
def runProcedure (oracle : Oracle) (coin : CoinConfig) (savedBalanceData : WBMap)
    (hasPendingValue : Bool) (useSavedBalanceData : Bool) :
    List WalletWithBalance → WBMap → Except Unit (List (WalletWithBalance × Bool) × WBMap)
  | [], temporal => .ok ([], temporal)
  | w :: rest, temporal =>
    match (retrieveWalletBalance oracle coin savedBalanceData hasPendingValue temporal
        w useSavedBalanceData).2 with
    | .error _ => .error ()
    | .ok (w2, flag, temporal2) =>
      match runProcedure oracle coin savedBalanceData hasPendingValue useSavedBalanceData
          rest temporal2 with
      | .error _ => .error ()
      | .ok (ws, temporal3) => .ok ((w2, flag) :: ws, temporal3)

/-- The per-address diff of the reconciliation step: when the coin values
differ, write the new value into the existing address entry and report a
change. -/
def diffAddress (currentAddress tmp : AddressWithBalance) : AddressWithBalance × Bool :=
  if ¬ currentAddress.coins = tmp.coins then
    ({ currentAddress with coins := tmp.coins }, true)
  else (currentAddress, false)

/-- The per-wallet diff of the reconciliation step: update the aggregate coin
value when it changed; when the address counts differ replace the address
array, else diff every address pairwise.  Returns the updated wallet and
whether any field changed. -/
def diffWallet (currentWallet tmp : WalletWithBalance) : WalletWithBalance × Bool :=
  let coinsChanged : Bool := decide (¬ currentWallet.coins = tmp.coins)
  let newCoins := if coinsChanged then tmp.coins else currentWallet.coins
  if ¬ currentWallet.addresses.length = tmp.addresses.length then
    ({ currentWallet with coins := newCoins, addresses := tmp.addresses }, true)
  else
    let pairs := List.zipWith diffAddress currentWallet.addresses tmp.addresses
    ({ currentWallet with coins := newCoins, addresses := pairs.map (·.1) },
      coinsChanged || pairs.any (·.2))

/-- Outcome of the compare-and-publish section of refreshBalances: the new
published list, the number of walletsWithBalanceSubject emissions, and
whether the published list reference was replaced wholesale (as opposed to
fields being mutated inside the existing list). -/
structure ReconcileResult where
  list : List WalletWithBalance
  emissions : Nat
  replaced : Bool
deriving DecidableEq, Repr

/-- Embedding of the list-update section of refreshBalances (the tap): when
no list was published yet, a quick update was forced, the wallet counts
differ or some wallet id differs at the same index, publish the freshly
computed list wholesale; otherwise mutate the changed balance fields inside
the published list and emit only when something changed. -/
def reconcile (walletsWithBalanceList : Option (List WalletWithBalance))
    (temporalWallets : List WalletWithBalance)
    (forceQuickCompleteArrayUpdate : Bool) : ReconcileResult :=
  match walletsWithBalanceList with
  | none => { list := temporalWallets, emissions := 1, replaced := true }
  | some current =>
    if forceQuickCompleteArrayUpdate ∨ ¬ current.length = temporalWallets.length then
      { list := temporalWallets, emissions := 1, replaced := true }
    else
      let idChangeDetected :=
        (List.zip current temporalWallets).any fun p => decide (¬ p.1.id = p.2.id)
      if idChangeDetected then
        { list := temporalWallets, emissions := 1, replaced := true }
      else
        let pairs := List.zipWith diffWallet current temporalWallets
        let changeDetected := pairs.any (·.2)
        { list := pairs.map (·.1)
          emissions := if changeDetected then 1 else 0
          replaced := false }

/-- Result of one refreshBalances call: the operator state afterwards, the
published list, the emission count, whether the list reference was replaced,
and the per-wallet pending-transaction flags fed to
hasPendingTransactionsSubject. -/
structure RefreshResult where
  state : OperatorState
  list : List WalletWithBalance
  emissions : Nat
  replaced : Bool
  pendingFlags : List Bool
deriving DecidableEq, Repr

/-- Embedding of EthBalanceAndOutputsOperator.refreshBalances: rebuild the
wallet list from the stored wallets, reset the temporal map in network mode,
fetch every wallet balance (a fake single false flag when there are no
wallets), publish the disjunction of the pending flags, reconcile against
the published list, and in network mode swap savedBalanceData to the
temporal map and mark the first full update made.  Any failed request
aborts the pass before any of these state changes. -/
def refreshBalances (oracle : Oracle) (coin : CoinConfig) (st : OperatorState)
    (wallets : List WalletBase) (forceQuickCompleteArrayUpdate : Bool) :
    Except Unit RefreshResult :=
  let temporalWallets := wallets.map walletWithBalanceFromBase
  let temporal0 : WBMap :=
    if ¬ forceQuickCompleteArrayUpdate then [] else st.temporalSavedBalanceData
  let procedure : Except Unit (List (WalletWithBalance × Bool) × WBMap) :=
    if 0 < wallets.length then
      runProcedure oracle coin st.savedBalanceData st.hasPendingTransactions
        forceQuickCompleteArrayUpdate temporalWallets temporal0
    else
      .ok ([], temporal0)
  match procedure with
  | .error _ => .error ()
  | .ok (pairs, temporal1) =>
    let walletHasPendingTx : List Bool :=
      if 0 < wallets.length then pairs.map (·.2) else [false]
    let updatedWallets := pairs.map (·.1)
    let reconcileResult :=
      reconcile st.walletsWithBalanceList updatedWallets forceQuickCompleteArrayUpdate
    .ok
      { state :=
          { walletsWithBalanceList := some reconcileResult.list
            savedBalanceData :=
              if ¬ forceQuickCompleteArrayUpdate then temporal1 else st.savedBalanceData
            temporalSavedBalanceData := temporal1
            hasPendingTransactions := walletHasPendingTx.any id
            firstFullUpdateMade :=
              if ¬ forceQuickCompleteArrayUpdate then true else st.firstFullUpdateMade
            hadErrorRefreshingBalance := st.hadErrorRefreshingBalance }
        list := reconcileResult.list
        emissions := reconcileResult.emissions
        replaced := reconcileResult.replaced
        pendingFlags := walletHasPendingTx }

/-- updatePeriod of EthBalanceAndOutputsOperator: 10 seconds for a local
node, 600 seconds for a remote one. -/
def updatePeriod (isLocal : Bool) : Nat :=
  if isLocal then 10 * 1000 else 600 * 1000

/-- errorUpdatePeriod of EthBalanceAndOutputsOperator: 2 seconds for a local
node, 60 seconds for a remote one. -/
def errorUpdatePeriod (isLocal : Bool) : Nat :=
  if isLocal then 2 * 1000 else 60 * 1000

/-- Outcome of one scheduled refresh cycle: the state afterwards, the delay
passed to the rescheduling call, and whether the cycle succeeded. -/
structure CycleResult where
  state : OperatorState
  nextDelayMs : Nat
  success : Bool
deriving DecidableEq, Repr

/-- Embedding of the body of startDataRefreshSubscription after the delay:
optionally run the quick pass, then the network pass; on success clear the
error flag and reschedule after updatePeriod, on failure set the error flag
and reschedule after errorUpdatePeriod. -/
def runCycle (oracle : Oracle) (coin : CoinConfig) (st : OperatorState)
    (wallets : List WalletBase) (updateWalletsFirst : Bool) : CycleResult :=
  let afterQuick : Except Unit OperatorState :=
    if updateWalletsFirst then
      match refreshBalances oracle coin st wallets true with
      | .error e => .error e
      | .ok r => .ok r.state
    else .ok st
  match afterQuick with
  | .error _ =>
    { state := { st with hadErrorRefreshingBalance := true }
      nextDelayMs := errorUpdatePeriod coin.isLocal
      success := false }
  | .ok st1 =>
    match refreshBalances oracle coin st1 wallets false with
    | .error _ =>
      { state := { st1 with hadErrorRefreshingBalance := true }
        nextDelayMs := errorUpdatePeriod coin.isLocal
        success := false }
    | .ok r =>
      { state := { r.state with hadErrorRefreshingBalance := false }
        nextDelayMs := updatePeriod coin.isLocal
        success := true }

/-- The blockchain sync state emitted by EthBlockchainOperator (interface
ProgressEvent). -/
structure ProgressEvent where
  currentBlock : Nat
  highestBlock : Nat
  synchronized : Bool
deriving DecidableEq, Repr

/-- Reply of the eth_syncing query: the literal false, or an object carrying
hex-encoded currentBlock and highestBlock fields. -/
inductive EthSyncingResponse where
  | notSyncing
  | stillSyncing (currentBlock : String) (highestBlock : String)
deriving DecidableEq, Repr

/-- Embedding of the subscribe handler of
EthBlockchainOperator.startDataRefreshSubscription: a false reply means the
chain is synchronized, otherwise the two hex block fields are decoded
(dropping the 0x prefix) and emitted with synchronized false.  The result is
none exactly when a field is not a hex quantity, the case in which the
source would emit NaN numbers. -/
def processSyncingResult (r : EthSyncingResponse) : Option ProgressEvent :=
  match r with
  | .notSyncing => some { currentBlock := 0, highestBlock := 0, synchronized := true }
  | .stillSyncing currentBlock highestBlock =>
    match hexToNat? (currentBlock.drop 2), hexToNat? (highestBlock.drop 2) with
    | some c, some h =>
      some { currentBlock := c, highestBlock := h, synchronized := false }
    | _, _ => none

/-- Modelled from the spec: the rxjs Subscription machinery behind
startDataRefreshSubscription and refreshBalance is library code outside the
repository sources; per the spec, each refresh trigger cancels any scheduled
or running chain cooperatively, and a cancelled chain can no longer reach
its reconciliation step.  The model keeps the id of the only active chain, a
counter handing out chain ids, and the log of chains whose network pass ran
to completion. -/
structure RefreshScheduler where
  activeChain : Option Nat
  nextChainId : Nat
  completedPasses : List Nat
deriving DecidableEq, Repr

/-- Modelled from the spec: the unsubscribe-then-resubscribe prologue of
startDataRefreshSubscription — the previous chain, scheduled or in flight,
is cancelled and a fresh chain becomes the only active one. -/
def cancelAndStart (s : RefreshScheduler) : RefreshScheduler :=
  { activeChain := some s.nextChainId
    nextChainId := s.nextChainId + 1
    completedPasses := s.completedPasses }

/-- Modelled from the spec: the delayed pipeline of a chain reaching its
network pass and reconciliation step; an unsubscribed chain no longer fires,
so only the active chain can complete. -/
def completeNetworkPass (s : RefreshScheduler) (chain : Nat) : RefreshScheduler :=
  if s.activeChain = some chain then
    { s with completedPasses := s.completedPasses ++ [chain] }
  else s

/-- The balance recorded for an address when the node answers with pendVal
and confVal raw units: both values divided exactly by 10 to the declared
decimals. -/
def fetchedBalance (coin : CoinConfig) (pendVal confVal : String → Nat)
    (a : String) : AddressBalance :=
  { current := (confVal a : ℚ) / (10 : ℚ) ^ coin.decimals
    predicted := (pendVal a : ℚ) / (10 : ℚ) ^ coin.decimals }

/-- The two requests issued for one address: its pending balance and its
balance at the confirmed block tag. -/
def addressRequests (coin : CoinConfig) (curBlock : Nat) (a : String) :
    List RpcRequest :=
  [pendingBalanceRequest (some a),
   confirmedBalanceRequest (some a) (confirmedBlockTag curBlock coin.confirmationsNeeded)]

/-- The wallet entry produced by a quick pass: the stored wallet with every
balance taken from the savedBalanceData entry of its id, or zero when the id
has no entry. -/
def quickWallet (saved : WBMap) (wb : WalletBase) : WalletWithBalance :=
  applyBalanceToWallet (walletWithBalanceFromBase wb) ((jsMapGet? saved wb.id).getD {})

instance instDecidableEqExcept {ε α : Type} [DecidableEq ε] [DecidableEq α] :
    DecidableEq (Except ε α) := fun a b =>
  match a, b with
  | .ok x, .ok y =>
    if h : x = y then .isTrue (by rw [h])
    else .isFalse (by intro he; cases he; exact h rfl)
  | .error x, .error y =>
    if h : x = y then .isTrue (by rw [h])
    else .isFalse (by intro he; cases he; exact h rfl)
  | .ok _, .error _ => .isFalse (by intro he; cases he)
  | .error _, .ok _ => .isFalse (by intro he; cases he)

/-- Pending raw balance (smallest unit, two decimals) the scenario node
reports per address: A1 has 5.00 pending, A2 has 4.00 pending (one pending
incoming transaction of 1.00), other addresses zero. -/
def scenarioPendVal : Option String → Nat
  | some "A1" => 500
  | some "A2" => 400
  | _ => 0

/-- Confirmed raw balance the scenario node reports per address: A1 has
5.00, A2 has 3.00, other addresses zero. -/
def scenarioConfVal : Option String → Nat
  | some "A1" => 500
  | some "A2" => 300
  | _ => 0

/-- Coin of the scenario: a local node, one confirmation needed, two
decimals. -/
def scenarioCoin : CoinConfig :=
  { isLocal := true
    nodeUrl := "http://127.0.0.1:8545"
    confirmationsNeeded := 1
    decimals := 2 }

/-- Wallet W of the spec scenario, with addresses A1 and A2. -/
def scenarioWalletBase : WalletBase :=
  { id := "w1", label := "W", addresses := [{ address := "A1" }, { address := "A2" }] }

/-- The scenario node: chain height 100, and balance queries answered from
scenarioPendVal and scenarioConfVal for the pending tag and the confirmed
block tag. -/
def scenarioOracle : Oracle := fun r =>
  if r = blockNumberRequest then .ok 100
  else if r.method = "eth_getBalance" then
    match r.params with
    | [addr, some tag] =>
      if tag = "pending" then .ok (scenarioPendVal addr)
      else if tag = confirmedBlockTag 100 1 then .ok (scenarioConfVal addr)
      else .error ()
    | _ => .error ()
  else .error ()

/-- A node that fails every request. -/
def failingOracle : Oracle := fun _ => .error ()

/-- The wallet balance the scenario network pass computes for wallet W:
confirmed 8, predicted 9 (A2 has a pending incoming transaction of 1). -/
def scenarioWalletBalance : WalletBalance :=
  { current := 8
    predicted := 9
    addresses := [(some "A1", { current := 5, predicted := 5 }),
                  (some "A2", { current := 3, predicted := 4 })] }

/-- The published wallet entry after the scenario network pass: W.coins is
the predicted sum 9. -/
def scenarioPublishedWallet : WalletWithBalance :=
  { id := "w1"
    label := "W"
    coins := 9
    addresses := [{ address := "A1", coins := 5 }, { address := "A2", coins := 4 }] }

/-- Full result of the scenario network pass. -/
def scenarioResult : RefreshResult :=
  { state :=
      { walletsWithBalanceList := some [scenarioPublishedWallet]
        savedBalanceData := [("w1", scenarioWalletBalance)]
        temporalSavedBalanceData := [("w1", scenarioWalletBalance)]
        hasPendingTransactions := true
        firstFullUpdateMade := true
        hadErrorRefreshingBalance := false }
    list := [scenarioPublishedWallet]
    emissions := 1
    replaced := true
    pendingFlags := [true] }

/-! Helper lemmas about the embedding. -/

theorem jsMapGet?_set {κ α : Type} [DecidableEq κ] (m : List (κ × α)) (k k2 : κ) (v : α) :
    jsMapGet? (jsMapSet m k v) k2 = if k2 = k then some v else jsMapGet? m k2 := by
  induction m with
  | nil =>
    by_cases h : k2 = k
    · subst h; simp [jsMapSet, jsMapGet?]
    · have h2 : ¬ k = k2 := fun he => h he.symm
      simp [jsMapSet, jsMapGet?, h, h2]
  | cons e rest ih =>
    obtain ⟨k3, v3⟩ := e
    by_cases h3 : k3 = k
    · subst h3
      by_cases h : k2 = k3
      · subst h; simp [jsMapSet, jsMapGet?]
      · have h2 : ¬ k3 = k2 := fun he => h he.symm
        simp [jsMapSet, jsMapGet?, h, h2]
    · by_cases h2 : k3 = k2
      · subst h2
        simp [jsMapSet, jsMapGet?, h3, fun he : k3 = k => h3 he]
      · simp [jsMapSet, jsMapGet?, h3, h2, ih]

theorem recursivelyGetBalancesAux_eq (oracle : Oracle) (coin : CoinConfig)
    (pendVal confVal : String → Nat) (curBlock : Nat)
    (hpend : ∀ a, oracle (pendingBalanceRequest (some a)) = .ok (pendVal a))
    (hconf : ∀ a, oracle (confirmedBalanceRequest (some a)
      (confirmedBlockTag curBlock coin.confirmationsNeeded)) = .ok (confVal a)) :
    ∀ (xs : List String) (init : AddrMap),
      recursivelyGetBalancesAux oracle coin curBlock (xs.map some) init =
        (xs.flatMap (addressRequests coin curBlock),
         .ok (xs.foldl
            (fun m a => jsMapSet m (some a) (fetchedBalance coin pendVal confVal a)) init)) := by
  intro xs
  induction xs with
  | nil => intro init; simp [recursivelyGetBalancesAux]
  | cons a rest ih =>
    intro init
    cases rest with
    | nil =>
      simp [recursivelyGetBalancesAux, hpend, hconf, addressRequests, fetchedBalance]
    | cons a2 rest2 =>
      rw [List.map_cons, List.map_cons, recursivelyGetBalancesAux]
      simp only [hpend, hconf]
      rw [List.map_cons] at ih
      rw [ih]
      simp [addressRequests, fetchedBalance]

theorem recursivelyGetBalances_eq (oracle : Oracle) (coin : CoinConfig)
    (pendVal confVal : String → Nat) (curBlock : Nat)
    (hpend : ∀ a, oracle (pendingBalanceRequest (some a)) = .ok (pendVal a))
    (hconf : ∀ a, oracle (confirmedBalanceRequest (some a)
      (confirmedBlockTag curBlock coin.confirmationsNeeded)) = .ok (confVal a)) :
    ∀ (l : List String) (init : AddrMap), l ≠ [] →
      recursivelyGetBalances oracle coin l curBlock init =
        (l.reverse.flatMap (addressRequests coin curBlock),
         .ok (l.reverse.foldl
            (fun m a => jsMapSet m (some a) (fetchedBalance coin pendVal confVal a)) init)) := by
  intro l init hne
  have hemp : l.isEmpty = false := by
    cases l with
    | nil => exact absurd rfl hne
    | cons a rest => rfl
  rw [recursivelyGetBalances, hemp]
  simp only [Bool.false_eq_true, if_false]
  exact recursivelyGetBalancesAux_eq oracle coin pendVal confVal curBlock hpend hconf
    l.reverse init

theorem jsMapGet?_foldl_set (f : String → AddressBalance) :
    ∀ (l : List String) (init : AddrMap) (k : Option String),
      jsMapGet? (l.foldl (fun m a => jsMapSet m (some a) (f a)) init) k =
        (match k with
         | some a => if a ∈ l then some (f a) else jsMapGet? init k
         | none => jsMapGet? init k) := by
  intro l
  induction l with
  | nil =>
    intro init k
    cases k <;> simp
  | cons a rest ih =>
    intro init k
    simp only [List.foldl_cons]
    rw [ih]
    cases k with
    | none => simp [jsMapGet?_set]
    | some b =>
      by_cases hb : b ∈ rest
      · simp [hb]
      · by_cases hba : b = a
        · subst hba
          simp [hb, jsMapGet?_set]
        · simp [hb, hba, jsMapGet?_set]

theorem computeWalletBalance_current (w : WalletWithBalance) (m : AddrMap) :
    (computeWalletBalance w m).current =
      (w.addresses.map fun ad => ((jsMapGet? m (some ad.address)).getD {}).current).sum := by
  suffices h : ∀ (l : List AddressWithBalance) (b : WalletBalance),
      (l.foldl (fun balance address =>
        let addressBalance := (jsMapGet? m (some address.address)).getD {}
        { current := balance.current + addressBalance.current
          predicted := balance.predicted + addressBalance.predicted
          addresses := jsMapSet balance.addresses (some address.address) addressBalance }) b).current =
        b.current + (l.map fun ad => ((jsMapGet? m (some ad.address)).getD {}).current).sum by
    have := h w.addresses {}
    simpa [computeWalletBalance] using this
  intro l
  induction l with
  | nil => intro b; simp
  | cons a rest ih =>
    intro b
    simp only [List.foldl_cons, List.map_cons, List.sum_cons]
    rw [ih]
    ring

theorem computeWalletBalance_predicted (w : WalletWithBalance) (m : AddrMap) :
    (computeWalletBalance w m).predicted =
      (w.addresses.map fun ad => ((jsMapGet? m (some ad.address)).getD {}).predicted).sum := by
  suffices h : ∀ (l : List AddressWithBalance) (b : WalletBalance),
      (l.foldl (fun balance address =>
        let addressBalance := (jsMapGet? m (some address.address)).getD {}
        { current := balance.current + addressBalance.current
          predicted := balance.predicted + addressBalance.predicted
          addresses := jsMapSet balance.addresses (some address.address) addressBalance }) b).predicted =
        b.predicted + (l.map fun ad => ((jsMapGet? m (some ad.address)).getD {}).predicted).sum by
    have := h w.addresses {}
    simpa [computeWalletBalance] using this
  intro l
  induction l with
  | nil => intro b; simp
  | cons a rest ih =>
    intro b
    simp only [List.foldl_cons, List.map_cons, List.sum_cons]
    rw [ih]
    ring

theorem zipWith_getElem? {α β γ : Type} (f : α → β → γ) :
    ∀ (l1 : List α) (l2 : List β) (k : Nat),
      (List.zipWith f l1 l2)[k]? =
        (match l1[k]?, l2[k]? with
         | some a, some b => some (f a b)
         | _, _ => none) := by
  intro l1
  induction l1 with
  | nil => intro l2 k; cases l2 <;> cases k <;> simp
  | cons a r1 ih =>
    intro l2 k
    cases l2 with
    | nil => cases k <;> simp
    | cons b r2 =>
      cases k with
      | zero => simp
      | succ n => simpa using ih r2 n

/-- diffAddress leaves an address untouched and reports no change when the
coin values agree. -/
theorem diffAddress_eq_of_coins_eq (a b : AddressWithBalance) (h : a.coins = b.coins) :
    diffAddress a b = (a, false) := by
  simp [diffAddress, h]

/-- diffAddress rewrites only the coin value and reports a change when the
coin values differ. -/
theorem diffAddress_eq_of_coins_ne (a b : AddressWithBalance) (h : ¬ a.coins = b.coins) :
    diffAddress a b = ({ a with coins := b.coins }, true) := by
  simp [diffAddress, h]

/-- The wallet produced by diffWallet always keeps its id. -/
theorem diffWallet_fst_id (a b : WalletWithBalance) :
    (diffWallet a b).1.id = a.id := by
  by_cases h : ¬ a.addresses.length = b.addresses.length <;> simp [diffWallet, h]

/-- The wallet produced by diffWallet always keeps its label. -/
theorem diffWallet_fst_label (a b : WalletWithBalance) :
    (diffWallet a b).1.label = a.label := by
  by_cases h : ¬ a.addresses.length = b.addresses.length <;> simp [diffWallet, h]

/-- The wallet produced by diffWallet always carries the freshly computed
aggregate coin value (writing it only when it differs from the stored
one). -/
theorem diffWallet_fst_coins (a b : WalletWithBalance) :
    (diffWallet a b).1.coins = b.coins := by
  by_cases hc : a.coins = b.coins <;>
    by_cases h : ¬ a.addresses.length = b.addresses.length <;>
      simp [diffWallet, h, hc]

/-- When nothing a wallet diff inspects changed, diffWallet returns the
stored wallet itself and reports no change. -/
theorem diffWallet_eq_of_no_change (a b : WalletWithBalance)
    (hc : a.coins = b.coins)
    (hlen : a.addresses.length = b.addresses.length)
    (haddr : ∀ (k : Nat) (x y : AddressWithBalance),
      a.addresses[k]? = some x → b.addresses[k]? = some y → x.coins = y.coins) :
    diffWallet a b = (a, false) := by
  have hpairs : List.zipWith diffAddress a.addresses b.addresses =
      a.addresses.map fun x => (x, false) := by
    apply List.ext_getElem?
    intro k
    rw [zipWith_getElem?, List.getElem?_map]
    cases hx : a.addresses[k]? with
    | none =>
      have : b.addresses[k]? = none := by
        rw [List.getElem?_eq_none_iff] at hx ⊢
        omega
      simp [hx, this]
    | some x =>
      cases hy : b.addresses[k]? with
      | none =>
        exfalso
        have h1 := (List.getElem?_eq_some.mp hx).1
        rw [List.getElem?_eq_none_iff] at hy
        omega
      | some y =>
        simp only [Option.map_some']
        rw [diffAddress_eq_of_coins_eq x y (haddr k x y hx hy)]
  have hmapfst : (a.addresses.map fun x => (x, false)).map
      (fun p : AddressWithBalance × Bool => p.1) = a.addresses := by
    rw [List.map_map]
    have hcomp : ((fun p : AddressWithBalance × Bool => p.1) ∘ fun x => (x, false)) = id := by
      funext x
      rfl
    rw [hcomp, List.map_id]
  have hmapsnd : (a.addresses.map fun x => (x, false)).any
      (fun p : AddressWithBalance × Bool => p.2) = false := by
    simp
  obtain ⟨aid, alabel, acoins, aaddr⟩ := a
  simp only [diffWallet, hc, decide_not, hlen]
  simp [hpairs, hmapfst, hmapsnd, ← hc]

/-- reconcile publishes the freshly computed list wholesale when no list was
published before. -/
theorem reconcile_none (tmp : List WalletWithBalance) (forceQuick : Bool) :
    reconcile none tmp forceQuick = { list := tmp, emissions := 1, replaced := true } := by
  simp [reconcile]

/-- reconcile publishes the freshly computed list wholesale on a quick
update or when the wallet counts differ. -/
theorem reconcile_coarse (prev tmp : List WalletWithBalance) (forceQuick : Bool)
    (h : forceQuick = true ∨ ¬ prev.length = tmp.length) :
    reconcile (some prev) tmp forceQuick =
      { list := tmp, emissions := 1, replaced := true } := by
  rcases h with h | h
  · subst h; simp [reconcile]
  · simp [reconcile, h]

/-- reconcile publishes the freshly computed list wholesale when a wallet id
changed at some index. -/
theorem reconcile_id_change (prev tmp : List WalletWithBalance)
    (k : Nat) (a b : WalletWithBalance)
    (ha : prev[k]? = some a) (hb : tmp[k]? = some b) (hne : ¬ a.id = b.id) :
    reconcile (some prev) tmp false =
      { list := tmp, emissions := 1, replaced := true } := by
  by_cases hlen : prev.length = tmp.length
  · have hz : (List.zip prev tmp)[k]? = some (a, b) := by
      rw [List.zip_eq_zipWith, zipWith_getElem?, ha, hb]
    have hmem : (a, b) ∈ List.zip prev tmp := List.getElem?_mem hz
    simp [reconcile, hlen]
    exact ⟨a, b, hmem, hne⟩
  · simp [reconcile, hlen]

/-- In the field-level branch (network pass, equal counts, equal ids),
reconcile keeps the published list reference and rewrites it with the
pairwise wallet diffs, emitting once exactly when some field changed. -/
theorem reconcile_fine (prev tmp : List WalletWithBalance)
    (hlen : prev.length = tmp.length)
    (hids : ∀ (k : Nat) (a b : WalletWithBalance),
      prev[k]? = some a → tmp[k]? = some b → a.id = b.id) :
    reconcile (some prev) tmp false =
      { list := (List.zipWith diffWallet prev tmp).map (fun p => p.1)
        emissions := if (List.zipWith diffWallet prev tmp).any (fun p => p.2) then 1 else 0
        replaced := false } := by
  have hids2 : ∀ x y : WalletWithBalance, (x, y) ∈ List.zip prev tmp → x.id = y.id := by
    intro x y hmem
    obtain ⟨k, hmk, hk⟩ := List.getElem_of_mem hmem
    have hk2 : (List.zip prev tmp)[k]? = some (x, y) := by
      rw [List.getElem?_eq_getElem hmk, hk]
    rw [List.zip_eq_zipWith, zipWith_getElem?] at hk2
    rcases ha : prev[k]? with _ | a2 <;> rw [ha] at hk2
    · simp at hk2
    · rcases hb : tmp[k]? with _ | b2 <;> rw [hb] at hk2
      · simp at hk2
      · simp only [Option.some.injEq, Prod.mk.injEq] at hk2
        obtain ⟨h1, h2⟩ := hk2
        subst h1
        subst h2
        exact hids k a2 b2 ha hb
  simp [reconcile, hlen]
  exact hids2

theorem applyBalanceToWallet_id (w : WalletWithBalance) (bal : WalletBalance) :
    (applyBalanceToWallet w bal).id = w.id := rfl

theorem applyBalanceToWallet_coins (w : WalletWithBalance) (bal : WalletBalance) :
    (applyBalanceToWallet w bal).coins = bal.predicted := rfl

theorem applyBalanceToWallet_addresses_getElem? (w : WalletWithBalance)
    (bal : WalletBalance) (k : Nat) :
    (applyBalanceToWallet w bal).addresses[k]? =
      (w.addresses[k]?).map fun ad =>
        { ad with coins :=
            ((jsMapGet? bal.addresses (some ad.address)).map AddressBalance.predicted).getD 0 } := by
  simp only [applyBalanceToWallet, List.getElem?_map]
  cases w.addresses[k]? with
  | none => rfl
  | some ad =>
    simp only [Option.map_some']
    cases jsMapGet? bal.addresses (some ad.address) <;> rfl

/-- In quick mode the balance retrieval is pure: it reads savedBalanceData,
returns the stored hasPendingTransactions value and records the balance in
the temporal map. -/
theorem runProcedure_quick (oracle : Oracle) (coin : CoinConfig) (saved : WBMap)
    (hp : Bool) :
    ∀ (l : List WalletWithBalance) (t : WBMap),
      runProcedure oracle coin saved hp true l t =
        .ok (l.map (fun w => (applyBalanceToWallet w ((jsMapGet? saved w.id).getD {}), hp)),
          l.foldl (fun t2 w => jsMapSet t2 w.id ((jsMapGet? saved w.id).getD {})) t) := by
  intro l
  induction l with
  | nil => intro t; simp [runProcedure]
  | cons w rest ih =>
    intro t
    simp [runProcedure, retrieveWalletBalance, ih]

/-- Shape of the refreshBalances result once the per-wallet procedure is
known to have succeeded. -/
theorem refreshBalances_eq_of_procedure (oracle : Oracle) (coin : CoinConfig)
    (st : OperatorState) (wallets : List WalletBase) (fq : Bool)
    (pairs : List (WalletWithBalance × Bool)) (temporal1 : WBMap)
    (hproc : (if 0 < wallets.length then
        runProcedure oracle coin st.savedBalanceData st.hasPendingTransactions fq
          (wallets.map walletWithBalanceFromBase)
          (if ¬ fq then [] else st.temporalSavedBalanceData)
      else .ok ([], (if ¬ fq then [] else st.temporalSavedBalanceData))) = .ok (pairs, temporal1)) :
    refreshBalances oracle coin st wallets fq =
      .ok
        { state :=
            { walletsWithBalanceList :=
                some (reconcile st.walletsWithBalanceList (pairs.map (fun p => p.1)) fq).list
              savedBalanceData := if ¬ fq then temporal1 else st.savedBalanceData
              temporalSavedBalanceData := temporal1
              hasPendingTransactions :=
                (if 0 < wallets.length then pairs.map (fun p => p.2) else [false]).any id
              firstFullUpdateMade := if ¬ fq then true else st.firstFullUpdateMade
              hadErrorRefreshingBalance := st.hadErrorRefreshingBalance }
          list := (reconcile st.walletsWithBalanceList (pairs.map (fun p => p.1)) fq).list
          emissions := (reconcile st.walletsWithBalanceList (pairs.map (fun p => p.1)) fq).emissions
          replaced := (reconcile st.walletsWithBalanceList (pairs.map (fun p => p.1)) fq).replaced
          pendingFlags := if 0 < wallets.length then pairs.map (fun p => p.2) else [false] } := by
  simp only [refreshBalances]
  rw [hproc]

/-- refreshBalances fails exactly as its per-wallet procedure does. -/
theorem refreshBalances_eq_of_procedure_err (oracle : Oracle) (coin : CoinConfig)
    (st : OperatorState) (wallets : List WalletBase) (fq : Bool)
    (hproc : (if 0 < wallets.length then
        runProcedure oracle coin st.savedBalanceData st.hasPendingTransactions fq
          (wallets.map walletWithBalanceFromBase)
          (if ¬ fq then [] else st.temporalSavedBalanceData)
      else .ok ([], (if ¬ fq then [] else st.temporalSavedBalanceData))) = .error ()) :
    refreshBalances oracle coin st wallets fq = .error () := by
  simp only [refreshBalances]
  rw [hproc]

/-- A quick refreshBalances pass always succeeds, leaves savedBalanceData in
place, publishes the rebuilt list wholesale with one emission, and fills
every wallet from the cache entry of its id (zero when absent). -/
theorem refreshBalances_quick (oracle : Oracle) (coin : CoinConfig)
    (st : OperatorState) (wallets : List WalletBase) :
    ∃ tFinal : WBMap,
      refreshBalances oracle coin st wallets true =
        .ok
          { state :=
              { walletsWithBalanceList := some (wallets.map (quickWallet st.savedBalanceData))
                savedBalanceData := st.savedBalanceData
                temporalSavedBalanceData := tFinal
                hasPendingTransactions :=
                  (if 0 < wallets.length then
                    wallets.map (fun _ => st.hasPendingTransactions) else [false]).any id
                firstFullUpdateMade := st.firstFullUpdateMade
                hadErrorRefreshingBalance := st.hadErrorRefreshingBalance }
            list := wallets.map (quickWallet st.savedBalanceData)
            emissions := 1
            replaced := true
            pendingFlags :=
              if 0 < wallets.length then
                wallets.map (fun _ => st.hasPendingTransactions) else [false] } := by
  have hfst : ((wallets.map walletWithBalanceFromBase).map
      (fun w => (applyBalanceToWallet w ((jsMapGet? st.savedBalanceData w.id).getD {}),
        st.hasPendingTransactions))).map
        (fun p : WalletWithBalance × Bool => p.1) =
      wallets.map (quickWallet st.savedBalanceData) := by
    rw [List.map_map, List.map_map]
    apply List.map_congr_left
    intro wb _
    rfl
  have hsnd : ((wallets.map walletWithBalanceFromBase).map
      (fun w => (applyBalanceToWallet w ((jsMapGet? st.savedBalanceData w.id).getD {}),
        st.hasPendingTransactions))).map
        (fun p : WalletWithBalance × Bool => p.2) =
      wallets.map (fun _ => st.hasPendingTransactions) := by
    rw [List.map_map, List.map_map]
    apply List.map_congr_left
    intro wb _
    rfl
  have hrec : reconcile st.walletsWithBalanceList
      (wallets.map (quickWallet st.savedBalanceData)) true =
      { list := wallets.map (quickWallet st.savedBalanceData)
        emissions := 1
        replaced := true } := by
    cases hprev : st.walletsWithBalanceList with
    | none => exact reconcile_none ..
    | some prev => exact reconcile_coarse prev _ true (Or.inl rfl)
  by_cases hw : 0 < wallets.length
  · refine ⟨(wallets.map walletWithBalanceFromBase).foldl
      (fun t2 w => jsMapSet t2 w.id ((jsMapGet? st.savedBalanceData w.id).getD {}))
      st.temporalSavedBalanceData, ?_⟩
    have hproc := runProcedure_quick oracle coin st.savedBalanceData
      st.hasPendingTransactions (wallets.map walletWithBalanceFromBase)
      st.temporalSavedBalanceData
    have h2 := refreshBalances_eq_of_procedure oracle coin st wallets true
      ((wallets.map walletWithBalanceFromBase).map
        (fun w => (applyBalanceToWallet w ((jsMapGet? st.savedBalanceData w.id).getD {}),
          st.hasPendingTransactions)))
      ((wallets.map walletWithBalanceFromBase).foldl
        (fun t2 w => jsMapSet t2 w.id ((jsMapGet? st.savedBalanceData w.id).getD {}))
        st.temporalSavedBalanceData)
      (by
        rw [if_pos hw]
        simpa using hproc)
    rw [h2, hfst, hsnd, hrec]
    simp [hw]
  · have hnil : wallets = [] := by
      cases wallets with
      | nil => rfl
      | cons a l => simp at hw
    subst hnil
    refine ⟨st.temporalSavedBalanceData, ?_⟩
    have h2 := refreshBalances_eq_of_procedure oracle coin st [] true [] st.temporalSavedBalanceData
      (by simp)
    rw [h2]
    simp only [List.map_nil] at hrec ⊢
    rw [hrec]
    simp

/-- A successful network pass swaps savedBalanceData to the freshly built
temporal map, marks the first full update made, and does not touch the error
flag inside refreshBalances. -/
theorem refreshBalances_net_fields (oracle : Oracle) (coin : CoinConfig)
    (st : OperatorState) (wallets : List WalletBase) (r : RefreshResult)
    (h : refreshBalances oracle coin st wallets false = .ok r) :
    r.state.savedBalanceData = r.state.temporalSavedBalanceData ∧
    r.state.firstFullUpdateMade = true ∧
    r.state.hadErrorRefreshingBalance = st.hadErrorRefreshingBalance ∧
    r.state.hasPendingTransactions = r.pendingFlags.any id := by
  cases hx : (if 0 < wallets.length then
      runProcedure oracle coin st.savedBalanceData st.hasPendingTransactions false
        (wallets.map walletWithBalanceFromBase) ([] : WBMap)
    else .ok ([], ([] : WBMap))) with
  | error e =>
    cases e
    have h2 : refreshBalances oracle coin st wallets false = .error () :=
      refreshBalances_eq_of_procedure_err oracle coin st wallets false hx
    rw [h2] at h
    exact absurd h (by simp)
  | ok pr =>
    obtain ⟨pairs, temporal1⟩ := pr
    have h2 := refreshBalances_eq_of_procedure oracle coin st wallets false pairs temporal1 hx
    rw [h2] at h
    simp only [Except.ok.injEq] at h
    subst h
    simp

/-- On a failed network pass the cycle driver only sets the error flag and
reschedules after the error period; the rest of the state is untouched. -/
theorem runCycle_err (oracle : Oracle) (coin : CoinConfig) (st : OperatorState)
    (wallets : List WalletBase)
    (h : refreshBalances oracle coin st wallets false = .error ()) :
    runCycle oracle coin st wallets false =
      { state := { st with hadErrorRefreshingBalance := true }
        nextDelayMs := errorUpdatePeriod coin.isLocal
        success := false } := by
  simp [runCycle, h]

/-- On a successful network pass the cycle driver clears the error flag and
reschedules after the update period. -/
theorem runCycle_ok (oracle : Oracle) (coin : CoinConfig) (st : OperatorState)
    (wallets : List WalletBase) (r : RefreshResult)
    (h : refreshBalances oracle coin st wallets false = .ok r) :
    runCycle oracle coin st wallets false =
      { state := { r.state with hadErrorRefreshingBalance := false }
        nextDelayMs := updatePeriod coin.isLocal
        success := true } := by
  simp [runCycle, h]

/-- On an empty address list the source reads the missing last element: the
node is queried for the undefined address and the returned map holds the
undefined key, so the result is never the empty map. -/
theorem recursivelyGetBalances_nil (oracle : Oracle) (coin : CoinConfig)
    (curBlock : Nat) (init : AddrMap) (p c : Nat)
    (hp : oracle (pendingBalanceRequest none) = .ok p)
    (hc2 : oracle (confirmedBalanceRequest none
      (confirmedBlockTag curBlock coin.confirmationsNeeded)) = .ok c) :
    recursivelyGetBalances oracle coin [] curBlock init =
      ([pendingBalanceRequest none,
        confirmedBalanceRequest none (confirmedBlockTag curBlock coin.confirmationsNeeded)],
       .ok (jsMapSet init none
        { current := (c : ℚ) / (10 : ℚ) ^ coin.decimals
          predicted := (p : ℚ) / (10 : ℚ) ^ coin.decimals })) := by
  simp [recursivelyGetBalances, recursivelyGetBalancesAux, hp, hc2]

/-- The confirmed block tag always starts with 0x, so it is never the
pending tag. -/
theorem confirmedBlockTag_ne_pending (cur conf : Nat) :
    ¬ confirmedBlockTag cur conf = "pending" := by
  intro h
  have h2 := congrArg String.data h
  rw [confirmedBlockTag] at h2
  rw [String.data_append] at h2
  simp at h2

theorem count_flatMap_pending (coin : CoinConfig) (curBlock : Nat) :
    ∀ (l : List String) (b : String),
      (l.flatMap (addressRequests coin curBlock)).count (pendingBalanceRequest (some b)) =
        l.count b := by
  intro l
  induction l with
  | nil => intro b; simp
  | cons a rest ih =>
    intro b
    rw [List.flatMap_cons, List.count_append, ih]
    have hconf : ¬ confirmedBalanceRequest (some a)
        (confirmedBlockTag curBlock coin.confirmationsNeeded) =
        pendingBalanceRequest (some b) := by
      intro he
      simp only [confirmedBalanceRequest, pendingBalanceRequest, RpcRequest.mk.injEq,
        List.cons.injEq, Option.some.injEq] at he
      exact confirmedBlockTag_ne_pending curBlock coin.confirmationsNeeded he.2.2.1
    by_cases hab : a = b
    · subst hab
      simp [addressRequests, List.count_cons, hconf]
      omega
    · have hpend : ¬ pendingBalanceRequest (some a) = pendingBalanceRequest (some b) := by
        intro he
        simp only [pendingBalanceRequest, RpcRequest.mk.injEq, List.cons.injEq,
          Option.some.injEq] at he
        exact hab he.2.1
      simp [addressRequests, List.count_cons, hconf, hpend, hab]

theorem count_flatMap_confirmed (coin : CoinConfig) (curBlock : Nat) :
    ∀ (l : List String) (b : String),
      (l.flatMap (addressRequests coin curBlock)).count
        (confirmedBalanceRequest (some b) (confirmedBlockTag curBlock coin.confirmationsNeeded)) =
        l.count b := by
  intro l
  induction l with
  | nil => intro b; simp
  | cons a rest ih =>
    intro b
    rw [List.flatMap_cons, List.count_append, ih]
    have hpend : ¬ pendingBalanceRequest (some a) =
        confirmedBalanceRequest (some b)
          (confirmedBlockTag curBlock coin.confirmationsNeeded) := by
      intro he
      simp only [confirmedBalanceRequest, pendingBalanceRequest, RpcRequest.mk.injEq,
        List.cons.injEq, Option.some.injEq] at he
      exact confirmedBlockTag_ne_pending curBlock coin.confirmationsNeeded he.2.2.1.symm
    by_cases hab : a = b
    · subst hab
      simp [addressRequests, List.count_cons, hpend]
      omega
    · have hconf : ¬ confirmedBalanceRequest (some a)
          (confirmedBlockTag curBlock coin.confirmationsNeeded) =
          confirmedBalanceRequest (some b)
            (confirmedBlockTag curBlock coin.confirmationsNeeded) := by
        intro he
        simp only [confirmedBalanceRequest, RpcRequest.mk.injEq, List.cons.injEq,
          Option.some.injEq] at he
        exact hab he.2.1
      simp [addressRequests, List.count_cons, hconf, hpend, hab]

/-- Pointwise view of the address list produced by the field-level wallet
diff when the address counts agree. -/
theorem diffWallet_fst_addresses_getElem? (a b : WalletWithBalance)
    (hlen : a.addresses.length = b.addresses.length) (k : Nat) :
    (diffWallet a b).1.addresses[k]? =
      (match a.addresses[k]?, b.addresses[k]? with
       | some x, some y => some (diffAddress x y).1
       | _, _ => none) := by
  have hne : ¬ ¬ a.addresses.length = b.addresses.length := fun hc => hc hlen
  simp only [diffWallet, if_neg hne, List.getElem?_map, zipWith_getElem?]
  cases a.addresses[k]? <;> cases b.addresses[k]? <;> rfl

/-- The field-level wallet diff preserves the stored address count when the
counts agree. -/
theorem diffWallet_fst_addresses_length (a b : WalletWithBalance)
    (hlen : a.addresses.length = b.addresses.length) :
    (diffWallet a b).1.addresses.length = a.addresses.length := by
  have hne : ¬ ¬ a.addresses.length = b.addresses.length := fun hc => hc hlen
  simp only [diffWallet, if_neg hne, List.length_map, List.length_zipWith]
  omega

/-- The field-level wallet diff reports a change whenever some address coin
value differs. -/
theorem diffWallet_snd_true_of_addr_changed (a b : WalletWithBalance)
    (hlen : a.addresses.length = b.addresses.length) (j : Nat)
    (x y : AddressWithBalance)
    (hx : a.addresses[j]? = some x) (hy : b.addresses[j]? = some y)
    (hne : ¬ x.coins = y.coins) :
    (diffWallet a b).2 = true := by
  have hln : ¬ ¬ a.addresses.length = b.addresses.length := fun hc => hc hlen
  have hz : (List.zipWith diffAddress a.addresses b.addresses)[j]? =
      some (diffAddress x y) := by
    rw [zipWith_getElem?, hx, hy]
  have hmem := List.getElem?_mem hz
  have hany : (List.zipWith diffAddress a.addresses b.addresses).any
      (fun p => p.2) = true := by
    rw [List.any_eq_true]
    refine ⟨diffAddress x y, hmem, ?_⟩
    rw [diffAddress_eq_of_coins_ne x y hne]
  simp [diffWallet, if_neg hln, hany]

/-- Shape of a network-mode balance retrieval once the block-number query and
the recursive per-address fetch are known to succeed. -/
theorem retrieveWalletBalance_net (oracle : Oracle) (coin : CoinConfig)
    (saved : WBMap) (hp : Bool) (temporal : WBMap) (w : WalletWithBalance)
    (curBlock : Nat) (m : AddrMap) (reqs : List RpcRequest)
    (hblock : oracle blockNumberRequest = .ok curBlock)
    (hrgb : recursivelyGetBalances oracle coin (w.addresses.map (fun a => a.address))
      curBlock [] = (reqs, .ok m)) :
    (retrieveWalletBalance oracle coin saved hp temporal w false).2 =
      .ok (applyBalanceToWallet w (computeWalletBalance w m),
           decide (¬ (computeWalletBalance w m).current = (computeWalletBalance w m).predicted),
           jsMapSet temporal w.id (computeWalletBalance w m)) := by
  simp only [retrieveWalletBalance, Bool.false_eq_true, if_false, hblock, hrgb]

theorem scenarioOracle_block : scenarioOracle blockNumberRequest = .ok 100 := rfl

theorem scenarioOracle_pending (a : Option String) :
    scenarioOracle (pendingBalanceRequest a) = .ok (scenarioPendVal a) := by
  simp [scenarioOracle, pendingBalanceRequest, blockNumberRequest]

theorem scenarioOracle_confirmed (a : Option String) :
    scenarioOracle (confirmedBalanceRequest a (confirmedBlockTag 100 1)) =
      .ok (scenarioConfVal a) := by
  simp [scenarioOracle, confirmedBalanceRequest, blockNumberRequest,
    confirmedBlockTag_ne_pending 100 1]

theorem scenarioRgb :
    recursivelyGetBalances scenarioOracle scenarioCoin ["A1", "A2"] 100 [] =
      ([pendingBalanceRequest (some "A2"),
        confirmedBalanceRequest (some "A2") (confirmedBlockTag 100 1),
        pendingBalanceRequest (some "A1"),
        confirmedBalanceRequest (some "A1") (confirmedBlockTag 100 1)],
       .ok [(some "A2", { current := 3, predicted := 4 }),
            (some "A1", { current := 5, predicted := 5 })]) := by
  have h := recursivelyGetBalances_eq scenarioOracle scenarioCoin
    (fun a => scenarioPendVal (some a)) (fun a => scenarioConfVal (some a)) 100
    (fun a => scenarioOracle_pending (some a)) (fun a => scenarioOracle_confirmed (some a))
    ["A1", "A2"] [] (by simp)
  rw [h]
  simp [addressRequests, fetchedBalance, jsMapSet, scenarioPendVal, scenarioConfVal, scenarioCoin]
  norm_num

theorem scenarioComputeBalance :
    computeWalletBalance (walletWithBalanceFromBase scenarioWalletBase)
      [(some "A2", { current := 3, predicted := 4 }),
       (some "A1", { current := 5, predicted := 5 })] = scenarioWalletBalance := by
  simp [computeWalletBalance, walletWithBalanceFromBase, scenarioWalletBase,
    jsMapGet?, jsMapSet, scenarioWalletBalance]
  norm_num

theorem scenarioRetrieve :
    (retrieveWalletBalance scenarioOracle scenarioCoin [] false []
      (walletWithBalanceFromBase scenarioWalletBase) false).2 =
      .ok (scenarioPublishedWallet, true, [("w1", scenarioWalletBalance)]) := by
  have h := retrieveWalletBalance_net scenarioOracle scenarioCoin [] false []
    (walletWithBalanceFromBase scenarioWalletBase) 100
    [(some "A2", { current := 3, predicted := 4 }),
     (some "A1", { current := 5, predicted := 5 })]
    [pendingBalanceRequest (some "A2"),
     confirmedBalanceRequest (some "A2") (confirmedBlockTag 100 1),
     pendingBalanceRequest (some "A1"),
     confirmedBalanceRequest (some "A1") (confirmedBlockTag 100 1)]
    scenarioOracle_block (by
      have h2 : (walletWithBalanceFromBase scenarioWalletBase).addresses.map
          (fun a => a.address) = ["A1", "A2"] := rfl
      rw [h2]
      exact scenarioRgb)
  rw [h, scenarioComputeBalance]
  simp only [Except.ok.injEq, Prod.mk.injEq]
  refine ⟨?_, ?_, ?_⟩
  · simp [applyBalanceToWallet, walletWithBalanceFromBase, scenarioWalletBase,
      scenarioWalletBalance, jsMapGet?, scenarioPublishedWallet]
  · simp [scenarioWalletBalance]
  · simp [jsMapSet, walletWithBalanceFromBase, scenarioWalletBase]

theorem scenarioRefresh :
    refreshBalances scenarioOracle scenarioCoin initialOperatorState
      [scenarioWalletBase] false = .ok scenarioResult := by
  have hproc : (if 0 < ([scenarioWalletBase] : List WalletBase).length then
      runProcedure scenarioOracle scenarioCoin initialOperatorState.savedBalanceData
        initialOperatorState.hasPendingTransactions false
        ([scenarioWalletBase].map walletWithBalanceFromBase) ([] : WBMap)
    else .ok ([], ([] : WBMap))) =
      .ok ([(scenarioPublishedWallet, true)], [("w1", scenarioWalletBalance)]) := by
    rw [if_pos (by simp)]
    simp only [List.map_cons, List.map_nil, runProcedure]
    rw [show initialOperatorState.savedBalanceData = ([] : WBMap) from rfl,
      show initialOperatorState.hasPendingTransactions = false from rfl]
    rw [scenarioRetrieve]
  have h := refreshBalances_eq_of_procedure scenarioOracle scenarioCoin initialOperatorState
    [scenarioWalletBase] false [(scenarioPublishedWallet, true)] [("w1", scenarioWalletBalance)]
    hproc
  rw [h]
  have hrec : reconcile initialOperatorState.walletsWithBalanceList
      ([(scenarioPublishedWallet, true)].map (fun p => p.1)) false =
      { list := [scenarioPublishedWallet], emissions := 1, replaced := true } := by
    rw [show initialOperatorState.walletsWithBalanceList =
      (none : Option (List WalletWithBalance)) from rfl]
    simp [reconcile_none]
  rw [hrec]
  simp [scenarioResult, initialOperatorState]

/-! Claim theorems. -/

/-- C2: For every reconciliation step of the balance operator: if no
previously published wallet list exists, or the freshly computed list has a
different wallet count than the published one, or some wallet id at the same
index differs between the two lists, then the operator replaces the entire
published list reference with the freshly computed list and emits it
(exactly one emission, wholesale replacement). -/
theorem claim_C2_coarse_replace (prevOpt : Option (List WalletWithBalance))
    (tmp : List WalletWithBalance) (forceQuick : Bool)
    (h : prevOpt = none ∨ ∃ prev, prevOpt = some prev ∧
      (¬ prev.length = tmp.length ∨ ∃ (k : Nat) (a b : WalletWithBalance),
        prev[k]? = some a ∧ tmp[k]? = some b ∧ ¬ a.id = b.id)) :
    reconcile prevOpt tmp forceQuick =
      { list := tmp, emissions := 1, replaced := true } := by
  rcases h with h | ⟨prev, hp, hcase⟩
  · subst h
    exact reconcile_none ..
  · subst hp
    rcases hcase with hlen | ⟨k, a, b, ha, hb, hne⟩
    · exact reconcile_coarse prev tmp forceQuick (Or.inr hlen)
    · cases forceQuick with
      | true => exact reconcile_coarse prev tmp true (Or.inl rfl)
      | false => exact reconcile_id_change prev tmp k a b ha hb hne

theorem claim_C2_witness :
    (((some [(⟨"w1", "L", 5, []⟩ : WalletWithBalance)]) :
        Option (List WalletWithBalance)) = none ∨
      ∃ prev, (some [(⟨"w1", "L", 5, []⟩ : WalletWithBalance)]) = some prev ∧
        (¬ prev.length = [(⟨"w2", "L", 5, []⟩ : WalletWithBalance)].length ∨
         ∃ (k : Nat) (a b : WalletWithBalance),
           prev[k]? = some a ∧
           [(⟨"w2", "L", 5, []⟩ : WalletWithBalance)][k]? = some b ∧ ¬ a.id = b.id)) ∧
    reconcile (some [(⟨"w1", "L", 5, []⟩ : WalletWithBalance)])
      [(⟨"w2", "L", 5, []⟩ : WalletWithBalance)] false =
      { list := [(⟨"w2", "L", 5, []⟩ : WalletWithBalance)]
        emissions := 1
        replaced := true } := by
  refine ⟨Or.inr ⟨_, rfl, Or.inr ⟨0, _, _, rfl, rfl, by decide⟩⟩, ?_⟩
  exact claim_C2_coarse_replace _ _ false
    (Or.inr ⟨_, rfl, Or.inr ⟨0, _, _, rfl, rfl, by decide⟩⟩)

/-- C6: Whenever the sync-status query of the blockchain operator returns
false, it emits the progress event with currentBlock 0, highestBlock 0 and
synchronized true; whenever the query returns hex-encoded current and
highest block fields, it emits their decoded integer values with
synchronized false — in particular currentBlock 0x64 and highestBlock 0xc8
yield 100 and 200. -/
theorem claim_C6_sync_progress :
    processSyncingResult .notSyncing =
      some { currentBlock := 0, highestBlock := 0, synchronized := true } ∧
    (∀ (cb hb : String) (c h : Nat),
      hexToNat? (cb.drop 2) = some c → hexToNat? (hb.drop 2) = some h →
      processSyncingResult (.stillSyncing cb hb) =
        some { currentBlock := c, highestBlock := h, synchronized := false }) ∧
    processSyncingResult (.stillSyncing "0x64" "0xc8") =
      some { currentBlock := 100, highestBlock := 200, synchronized := false } := by
  refine ⟨rfl, ?_, by decide⟩
  intro cb hb c h h1 h2
  simp [processSyncingResult, h1, h2]

theorem claim_C6_witness :
    hexToNat? ("0x64".drop 2) = some 100 ∧ hexToNat? ("0xc8".drop 2) = some 200 ∧
    processSyncingResult (.stillSyncing "0x64" "0xc8") =
      some { currentBlock := 100, highestBlock := 200, synchronized := false } :=
  ⟨by decide, by decide,
    claim_C6_sync_progress.2.1 "0x64" "0xc8" 100 200 (by decide) (by decide)⟩

/-- C8: Starting a new balance refresh while a chain is scheduled or in
flight cancels the earlier chain before its reconciliation step runs: after
two rapid triggers only the second chain is active, the first chain firing
completes nothing and changes nothing, and firing both chains completes
exactly the second one. -/
theorem claim_C8_single_active_chain (s : RefreshScheduler) :
    (cancelAndStart (cancelAndStart s)).activeChain = some (s.nextChainId + 1) ∧
    completeNetworkPass (cancelAndStart (cancelAndStart s)) s.nextChainId =
      cancelAndStart (cancelAndStart s) ∧
    (completeNetworkPass (completeNetworkPass (cancelAndStart (cancelAndStart s))
        s.nextChainId) (s.nextChainId + 1)).completedPasses =
      s.completedPasses ++ [s.nextChainId + 1] := by
  refine ⟨rfl, ?_, ?_⟩
  · have hne : ¬ ((cancelAndStart (cancelAndStart s)).activeChain = some s.nextChainId) := by
      simp [cancelAndStart]
    simp [completeNetworkPass, hne]
  · have hne : ¬ ((cancelAndStart (cancelAndStart s)).activeChain = some s.nextChainId) := by
      simp [cancelAndStart]
    simp [completeNetworkPass, hne, cancelAndStart]

/-- C3: If any node request of a network refresh pass fails, the operator
sets the had-error flag, reschedules after errorUpdatePeriod (shorter than
updatePeriod for both the local and the remote setting), and leaves the
published wallet list and the savedBalanceData cache exactly as they were;
on a successful pass it clears the error flag, swaps savedBalanceData to the
freshly fetched data, marks firstFullUpdateMade true, and reschedules after
updatePeriod. -/
theorem claim_C3_error_handling :
    (∀ (oracle : Oracle) (coin : CoinConfig) (st : OperatorState)
        (wallets : List WalletBase),
      refreshBalances oracle coin st wallets false = .error () →
      runCycle oracle coin st wallets false =
        { state := { st with hadErrorRefreshingBalance := true }
          nextDelayMs := errorUpdatePeriod coin.isLocal
          success := false } ∧
      (runCycle oracle coin st wallets false).state.walletsWithBalanceList =
        st.walletsWithBalanceList ∧
      (runCycle oracle coin st wallets false).state.savedBalanceData =
        st.savedBalanceData) ∧
    (∀ (oracle : Oracle) (coin : CoinConfig) (st : OperatorState)
        (wallets : List WalletBase) (r : RefreshResult),
      refreshBalances oracle coin st wallets false = .ok r →
      runCycle oracle coin st wallets false =
        { state := { r.state with hadErrorRefreshingBalance := false }
          nextDelayMs := updatePeriod coin.isLocal
          success := true } ∧
      r.state.savedBalanceData = r.state.temporalSavedBalanceData ∧
      r.state.firstFullUpdateMade = true) ∧
    (∀ b : Bool, errorUpdatePeriod b < updatePeriod b) := by
  refine ⟨?_, ?_, ?_⟩
  · intro oracle coin st wallets h
    have h2 := runCycle_err oracle coin st wallets h
    exact ⟨h2, by rw [h2], by rw [h2]⟩
  · intro oracle coin st wallets r h
    obtain ⟨h1, h2, h3, h4⟩ := refreshBalances_net_fields oracle coin st wallets r h
    exact ⟨runCycle_ok oracle coin st wallets r h, h1, h2⟩
  · intro b
    cases b <;> decide

theorem claim_C3_witness :
    refreshBalances failingOracle scenarioCoin initialOperatorState
      [scenarioWalletBase] false = .error () ∧
    runCycle failingOracle scenarioCoin initialOperatorState [scenarioWalletBase] false =
      { state := { initialOperatorState with hadErrorRefreshingBalance := true }
        nextDelayMs := errorUpdatePeriod scenarioCoin.isLocal
        success := false } ∧
    refreshBalances scenarioOracle scenarioCoin initialOperatorState
      [scenarioWalletBase] false = .ok scenarioResult ∧
    runCycle scenarioOracle scenarioCoin initialOperatorState [scenarioWalletBase] false =
      { state := { scenarioResult.state with hadErrorRefreshingBalance := false }
        nextDelayMs := updatePeriod scenarioCoin.isLocal
        success := true } := by
  have herr : refreshBalances failingOracle scenarioCoin initialOperatorState
      [scenarioWalletBase] false = .error () := by
    apply refreshBalances_eq_of_procedure_err
    simp [runProcedure, retrieveWalletBalance, failingOracle]
  refine ⟨herr, ?_, scenarioRefresh, ?_⟩
  · exact (claim_C3_error_handling.1 failingOracle scenarioCoin initialOperatorState
      [scenarioWalletBase] herr).1
  · exact (claim_C3_error_handling.2.1 scenarioOracle scenarioCoin initialOperatorState
      [scenarioWalletBase] scenarioResult scenarioRefresh).1

/-- C5: In a quick (cached) refresh pass, every wallet whose id has no entry
in savedBalanceData gets balance zero for the wallet and all its addresses,
and every wallet with an entry gets exactly the cached balances; the pass
leaves the savedBalanceData cache untouched, so before any successful
network pass (empty cache) every balance is zero. -/
theorem claim_C5_cache_fallback (oracle : Oracle) (coin : CoinConfig)
    (st : OperatorState) (wallets : List WalletBase) (k : Nat) (wb : WalletBase)
    (hk : wallets[k]? = some wb) :
    ∃ r : RefreshResult,
      refreshBalances oracle coin st wallets true = .ok r ∧
      r.state.savedBalanceData = st.savedBalanceData ∧
      ∃ w2 : WalletWithBalance, r.list[k]? = some w2 ∧
        w2.id = wb.id ∧
        w2.coins = (match jsMapGet? st.savedBalanceData wb.id with
                    | none => 0
                    | some bal => bal.predicted) ∧
        w2.addresses.length = wb.addresses.length ∧
        (∀ (l2 : Nat) (ab : AddressBase), wb.addresses[l2]? = some ab →
          w2.addresses[l2]? = some ⟨ab.address,
            (match jsMapGet? st.savedBalanceData wb.id with
             | none => 0
             | some bal =>
               ((jsMapGet? bal.addresses (some ab.address)).map
                 AddressBalance.predicted).getD 0)⟩) := by
  obtain ⟨t, he⟩ := refreshBalances_quick oracle coin st wallets
  refine ⟨_, he, rfl, quickWallet st.savedBalanceData wb, ?_, rfl, ?_, ?_, ?_⟩
  · show (wallets.map (quickWallet st.savedBalanceData))[k]? = _
    rw [List.getElem?_map, hk]
    rfl
  · cases hl : jsMapGet? st.savedBalanceData wb.id <;>
      simp [quickWallet, applyBalanceToWallet, hl]
  · simp [quickWallet, applyBalanceToWallet, walletWithBalanceFromBase]
  · intro l2 ab hab
    rw [show quickWallet st.savedBalanceData wb =
      applyBalanceToWallet (walletWithBalanceFromBase wb)
        ((jsMapGet? st.savedBalanceData wb.id).getD {}) from rfl]
    rw [applyBalanceToWallet_addresses_getElem?]
    have hbase : (walletWithBalanceFromBase wb).addresses[l2]? =
        some { address := ab.address, coins := 0 } := by
      simp [walletWithBalanceFromBase, List.getElem?_map, hab]
    rw [hbase]
    cases hl : jsMapGet? st.savedBalanceData wb.id <;> simp [hl, jsMapGet?]

theorem claim_C5_witness :
    (([scenarioWalletBase] : List WalletBase)[0]? = some scenarioWalletBase) ∧
    (∃ r : RefreshResult,
      refreshBalances scenarioOracle scenarioCoin scenarioResult.state
        [scenarioWalletBase] true = .ok r ∧
      r.state.savedBalanceData = scenarioResult.state.savedBalanceData ∧
      ∃ w2 : WalletWithBalance, r.list[0]? = some w2 ∧
        w2.id = scenarioWalletBase.id ∧
        w2.coins = (match jsMapGet? scenarioResult.state.savedBalanceData
            scenarioWalletBase.id with
          | none => 0
          | some bal => bal.predicted) ∧
        w2.addresses.length = scenarioWalletBase.addresses.length ∧
        (∀ (l2 : Nat) (ab : AddressBase), scenarioWalletBase.addresses[l2]? = some ab →
          w2.addresses[l2]? = some ⟨ab.address,
            (match jsMapGet? scenarioResult.state.savedBalanceData
                scenarioWalletBase.id with
             | none => 0
             | some bal =>
               ((jsMapGet? bal.addresses (some ab.address)).map
                 AddressBalance.predicted).getD 0)⟩)) :=
  ⟨rfl, claim_C5_cache_fallback scenarioOracle scenarioCoin scenarioResult.state
    [scenarioWalletBase] 0 scenarioWalletBase rfl⟩

/-- C7: For every address processed in a network pass, the confirmed
balance is queried at the block tag max(0, currentChainHeight -
(confirmationsNeeded - 1)), and both the pending and the confirmed raw node
values are converted to display units by exact division by 10 to the power
of the declared decimal exponent. -/
theorem claim_C7_confirmed_block_and_decimals (oracle : Oracle) (coin : CoinConfig)
    (pendVal confVal : String → Nat) (curBlock : Nat) (l : List String) (init : AddrMap)
    (hne : l ≠ [])
    (hpend : ∀ a, oracle (pendingBalanceRequest (some a)) = .ok (pendVal a))
    (hconf : ∀ a, oracle (confirmedBalanceRequest (some a)
      (confirmedBlockTag curBlock coin.confirmationsNeeded)) = .ok (confVal a)) :
    confirmedBlockTag curBlock coin.confirmationsNeeded =
      "0x" ++ natToHex (Int.toNat (max
        ((curBlock : Int) - ((coin.confirmationsNeeded : Int) - 1)) 0)) ∧
    (recursivelyGetBalances oracle coin l curBlock init).1 =
      l.reverse.flatMap (addressRequests coin curBlock) ∧
    ∃ m, (recursivelyGetBalances oracle coin l curBlock init).2 = .ok m ∧
      ∀ a ∈ l, jsMapGet? m (some a) =
        some { current := (confVal a : ℚ) / (10 : ℚ) ^ coin.decimals
               predicted := (pendVal a : ℚ) / (10 : ℚ) ^ coin.decimals } := by
  have h := recursivelyGetBalances_eq oracle coin pendVal confVal curBlock hpend hconf
    l init hne
  refine ⟨?_, by rw [h], ?_⟩
  · rw [confirmedBlockTag]
    by_cases hb : (curBlock : Int) - ((coin.confirmationsNeeded : Int) - 1) < 0
    · rw [if_pos hb, max_eq_right (le_of_lt hb)]
    · rw [if_neg hb, max_eq_left (not_lt.mp hb)]
  · refine ⟨_, by rw [h], ?_⟩
    intro a ha
    rw [jsMapGet?_foldl_set]
    simp only [List.mem_reverse, ha, if_pos]
    rfl

theorem claim_C7_witness :
    (["A1", "A2"] ≠ ([] : List String)) ∧
    (confirmedBlockTag 100 scenarioCoin.confirmationsNeeded =
      "0x" ++ natToHex (Int.toNat (max
        ((100 : Int) - ((scenarioCoin.confirmationsNeeded : Int) - 1)) 0)) ∧
    (recursivelyGetBalances scenarioOracle scenarioCoin ["A1", "A2"] 100 []).1 =
      (["A1", "A2"] : List String).reverse.flatMap (addressRequests scenarioCoin 100) ∧
    ∃ m, (recursivelyGetBalances scenarioOracle scenarioCoin ["A1", "A2"] 100 []).2 = .ok m ∧
      ∀ a ∈ (["A1", "A2"] : List String), jsMapGet? m (some a) =
        some { current := ((scenarioConfVal (some a) : ℚ)) / (10 : ℚ) ^ scenarioCoin.decimals
               predicted := ((scenarioPendVal (some a) : ℚ)) / (10 : ℚ) ^ scenarioCoin.decimals }) :=
  ⟨by simp,
   claim_C7_confirmed_block_and_decimals scenarioOracle scenarioCoin
     (fun a => scenarioPendVal (some a)) (fun a => scenarioConfVal (some a)) 100
     ["A1", "A2"] [] (by simp)
     (fun a => scenarioOracle_pending (some a))
     (fun a => scenarioOracle_confirmed (some a))⟩

/-- C9: With the per-address node responses held fixed as a function of the
address, permuting a wallet address list leaves the contents of the map
returned by the per-address fetch protocol unchanged (the map is keyed by
address) and the aggregated current and predicted wallet balances
unchanged. -/
theorem claim_C9_order_independence (oracle : Oracle) (coin : CoinConfig)
    (pendVal confVal : String → Nat) (curBlock : Nat)
    (w : WalletWithBalance) (addrs2 : List AddressWithBalance)
    (hperm : w.addresses.Perm addrs2)
    (hpend : ∀ a, oracle (pendingBalanceRequest (some a)) = .ok (pendVal a))
    (hconf : ∀ a, oracle (confirmedBalanceRequest (some a)
      (confirmedBlockTag curBlock coin.confirmationsNeeded)) = .ok (confVal a)) :
    ∀ m m2 : AddrMap,
      (recursivelyGetBalances oracle coin (w.addresses.map (fun ad => ad.address))
        curBlock []).2 = .ok m →
      (recursivelyGetBalances oracle coin (addrs2.map (fun ad => ad.address))
        curBlock []).2 = .ok m2 →
      (∀ k2 : Option String, jsMapGet? m k2 = jsMapGet? m2 k2) ∧
      (computeWalletBalance w m).current =
        (computeWalletBalance { w with addresses := addrs2 } m2).current ∧
      (computeWalletBalance w m).predicted =
        (computeWalletBalance { w with addresses := addrs2 } m2).predicted := by
  intro m m2 hm hm2
  by_cases hnil : w.addresses = []
  · have hnil2 : addrs2 = [] := (hnil ▸ hperm).symm.eq_nil
    rw [hnil] at hm
    rw [hnil2] at hm2
    rw [hm] at hm2
    have hmm : m = m2 := by
      simpa using hm2
    subst hmm
    refine ⟨fun k2 => rfl, ?_, ?_⟩ <;> simp [computeWalletBalance, hnil, hnil2]
  · have hnil2 : ¬ addrs2 = [] := by
      intro hc
      rw [hc] at hperm
      exact hnil hperm.eq_nil
    have hmap : w.addresses.map (fun ad => ad.address) ≠ [] := by
      simpa using hnil
    have hmap2 : addrs2.map (fun ad => ad.address) ≠ [] := by
      simpa using hnil2
    have h1 := recursivelyGetBalances_eq oracle coin pendVal confVal curBlock hpend hconf
      (w.addresses.map (fun ad => ad.address)) [] hmap
    have h2 := recursivelyGetBalances_eq oracle coin pendVal confVal curBlock hpend hconf
      (addrs2.map (fun ad => ad.address)) [] hmap2
    rw [h1] at hm
    rw [h2] at hm2
    have hmval : m = (w.addresses.map (fun ad => ad.address)).reverse.foldl
        (fun m3 a => jsMapSet m3 (some a) (fetchedBalance coin pendVal confVal a)) [] := by
      simpa using hm.symm
    have hm2val : m2 = (addrs2.map (fun ad => ad.address)).reverse.foldl
        (fun m3 a => jsMapSet m3 (some a) (fetchedBalance coin pendVal confVal a)) [] := by
      simpa using hm2.symm
    have hpermaddr : (w.addresses.map (fun ad => ad.address)).Perm
        (addrs2.map (fun ad => ad.address)) := hperm.map _
    have hlookup : ∀ k2 : Option String, jsMapGet? m k2 = jsMapGet? m2 k2 := by
      intro k2
      rw [hmval, hm2val, jsMapGet?_foldl_set, jsMapGet?_foldl_set]
      cases k2 with
      | none => rfl
      | some a =>
        by_cases hmem : a ∈ w.addresses.map (fun ad => ad.address)
        · have hmem2 : a ∈ addrs2.map (fun ad => ad.address) := hpermaddr.mem_iff.mp hmem
          simp [hmem, hmem2]
        · have hmem2 : ¬ a ∈ addrs2.map (fun ad => ad.address) :=
            fun hc => hmem (hpermaddr.mem_iff.mpr hc)
          simp [hmem, hmem2]
    refine ⟨hlookup, ?_, ?_⟩
    · rw [computeWalletBalance_current, computeWalletBalance_current]
      have hfn : (fun ad : AddressWithBalance =>
          ((jsMapGet? m (some ad.address)).getD {}).current) =
          (fun ad : AddressWithBalance =>
            ((jsMapGet? m2 (some ad.address)).getD {}).current) := by
        funext ad
        rw [hlookup]
      rw [hfn]
      exact (hperm.map _).sum_eq
    · rw [computeWalletBalance_predicted, computeWalletBalance_predicted]
      have hfn : (fun ad : AddressWithBalance =>
          ((jsMapGet? m (some ad.address)).getD {}).predicted) =
          (fun ad : AddressWithBalance =>
            ((jsMapGet? m2 (some ad.address)).getD {}).predicted) := by
        funext ad
        rw [hlookup]
      rw [hfn]
      exact (hperm.map _).sum_eq

theorem scenarioRgbSwapped :
    recursivelyGetBalances scenarioOracle scenarioCoin ["A2", "A1"] 100 [] =
      ([pendingBalanceRequest (some "A1"),
        confirmedBalanceRequest (some "A1") (confirmedBlockTag 100 1),
        pendingBalanceRequest (some "A2"),
        confirmedBalanceRequest (some "A2") (confirmedBlockTag 100 1)],
       .ok [(some "A1", { current := 5, predicted := 5 }),
            (some "A2", { current := 3, predicted := 4 })]) := by
  have h := recursivelyGetBalances_eq scenarioOracle scenarioCoin
    (fun a => scenarioPendVal (some a)) (fun a => scenarioConfVal (some a)) 100
    (fun a => scenarioOracle_pending (some a)) (fun a => scenarioOracle_confirmed (some a))
    ["A2", "A1"] [] (by simp)
  rw [h]
  simp [addressRequests, fetchedBalance, jsMapSet, scenarioPendVal, scenarioConfVal, scenarioCoin]
  norm_num

theorem claim_C9_witness :
    ((walletWithBalanceFromBase scenarioWalletBase).addresses.Perm
      [(⟨"A2", 0⟩ : AddressWithBalance), ⟨"A1", 0⟩]) ∧
    ((∀ k2 : Option String,
      jsMapGet? [(some "A2", ({ current := 3, predicted := 4 } : AddressBalance)),
        (some "A1", { current := 5, predicted := 5 })] k2 =
      jsMapGet? [(some "A1", ({ current := 5, predicted := 5 } : AddressBalance)),
        (some "A2", { current := 3, predicted := 4 })] k2) ∧
    (computeWalletBalance (walletWithBalanceFromBase scenarioWalletBase)
      [(some "A2", { current := 3, predicted := 4 }),
       (some "A1", { current := 5, predicted := 5 })]).current =
      (computeWalletBalance { walletWithBalanceFromBase scenarioWalletBase with
          addresses := [⟨"A2", 0⟩, ⟨"A1", 0⟩] }
        [(some "A1", { current := 5, predicted := 5 }),
         (some "A2", { current := 3, predicted := 4 })]).current ∧
    (computeWalletBalance (walletWithBalanceFromBase scenarioWalletBase)
      [(some "A2", { current := 3, predicted := 4 }),
       (some "A1", { current := 5, predicted := 5 })]).predicted =
      (computeWalletBalance { walletWithBalanceFromBase scenarioWalletBase with
          addresses := [⟨"A2", 0⟩, ⟨"A1", 0⟩] }
        [(some "A1", { current := 5, predicted := 5 }),
         (some "A2", { current := 3, predicted := 4 })]).predicted) := by
  have hperm : (walletWithBalanceFromBase scenarioWalletBase).addresses.Perm
      [(⟨"A2", 0⟩ : AddressWithBalance), ⟨"A1", 0⟩] := by
    have : (walletWithBalanceFromBase scenarioWalletBase).addresses =
        [(⟨"A1", 0⟩ : AddressWithBalance), ⟨"A2", 0⟩] := rfl
    rw [this]
    exact List.Perm.swap ..
  refine ⟨hperm, ?_⟩
  exact claim_C9_order_independence scenarioOracle scenarioCoin
    (fun a => scenarioPendVal (some a)) (fun a => scenarioConfVal (some a)) 100
    (walletWithBalanceFromBase scenarioWalletBase) [⟨"A2", 0⟩, ⟨"A1", 0⟩] hperm
    (fun a => scenarioOracle_pending (some a))
    (fun a => scenarioOracle_confirmed (some a))
    _ _ (congrArg Prod.snd scenarioRgb) (congrArg Prod.snd scenarioRgbSwapped)

/-- C10: For every non-empty address list with responsive node,
recursivelyGetBalances terminates with a map whose key set is exactly the
input address set, issuing one pending and one confirmed request per
address; for the empty list it instead reads the missing last element,
issues the two requests for the undefined address, and returns a map
holding the undefined key rather than the empty map. -/
theorem claim_C10_termination_and_keys :
    (∀ (oracle : Oracle) (coin : CoinConfig) (pendVal confVal : String → Nat)
        (curBlock : Nat) (l : List String),
      l ≠ [] →
      (∀ a, oracle (pendingBalanceRequest (some a)) = .ok (pendVal a)) →
      (∀ a, oracle (confirmedBalanceRequest (some a)
        (confirmedBlockTag curBlock coin.confirmationsNeeded)) = .ok (confVal a)) →
      ∃ m, (recursivelyGetBalances oracle coin l curBlock []).2 = .ok m ∧
        (∀ a : String, (jsMapGet? m (some a)).isSome = true ↔ a ∈ l) ∧
        jsMapGet? m none = none ∧
        (recursivelyGetBalances oracle coin l curBlock []).1 =
          l.reverse.flatMap (addressRequests coin curBlock) ∧
        (l.Nodup → ∀ a ∈ l,
          (recursivelyGetBalances oracle coin l curBlock []).1.count
            (pendingBalanceRequest (some a)) = 1 ∧
          (recursivelyGetBalances oracle coin l curBlock []).1.count
            (confirmedBalanceRequest (some a)
              (confirmedBlockTag curBlock coin.confirmationsNeeded)) = 1)) ∧
    (∀ (oracle : Oracle) (coin : CoinConfig) (curBlock : Nat) (p c : Nat),
      oracle (pendingBalanceRequest none) = .ok p →
      oracle (confirmedBalanceRequest none
        (confirmedBlockTag curBlock coin.confirmationsNeeded)) = .ok c →
      (recursivelyGetBalances oracle coin [] curBlock []).1 =
        [pendingBalanceRequest none,
         confirmedBalanceRequest none (confirmedBlockTag curBlock coin.confirmationsNeeded)] ∧
      ∃ m, (recursivelyGetBalances oracle coin [] curBlock []).2 = .ok m ∧
        ¬ m = [] ∧ (jsMapGet? m none).isSome = true) := by
  constructor
  · intro oracle coin pendVal confVal curBlock l hne hpend hconf
    have h := recursivelyGetBalances_eq oracle coin pendVal confVal curBlock hpend hconf
      l [] hne
    refine ⟨_, by rw [h], ?_, ?_, by rw [h], ?_⟩
    · intro a
      rw [jsMapGet?_foldl_set]
      by_cases ha : a ∈ l
      · simp [ha]
      · simp [ha, jsMapGet?]
    · rw [jsMapGet?_foldl_set]
      rfl
    · intro hnd a ha
      rw [h]
      constructor
      · rw [count_flatMap_pending, List.count_reverse]
        exact List.count_eq_one_of_mem hnd ha
      · rw [count_flatMap_confirmed, List.count_reverse]
        exact List.count_eq_one_of_mem hnd ha
  · intro oracle coin curBlock p c hp hc2
    have h := recursivelyGetBalances_nil oracle coin curBlock [] p c hp hc2
    refine ⟨by rw [h], _, by rw [h], ?_, ?_⟩
    · simp [jsMapSet]
    · simp [jsMapSet, jsMapGet?]

theorem claim_C10_witness :
    ((["A1", "A2"] : List String) ≠ []) ∧
    (∃ m, (recursivelyGetBalances scenarioOracle scenarioCoin ["A1", "A2"] 100 []).2 = .ok m ∧
      (∀ a : String, (jsMapGet? m (some a)).isSome = true ↔ a ∈ (["A1", "A2"] : List String)) ∧
      jsMapGet? m none = none ∧
      (recursivelyGetBalances scenarioOracle scenarioCoin ["A1", "A2"] 100 []).1 =
        (["A1", "A2"] : List String).reverse.flatMap (addressRequests scenarioCoin 100) ∧
      ((["A1", "A2"] : List String).Nodup → ∀ a ∈ (["A1", "A2"] : List String),
        (recursivelyGetBalances scenarioOracle scenarioCoin ["A1", "A2"] 100 []).1.count
          (pendingBalanceRequest (some a)) = 1 ∧
        (recursivelyGetBalances scenarioOracle scenarioCoin ["A1", "A2"] 100 []).1.count
          (confirmedBalanceRequest (some a)
            (confirmedBlockTag 100 scenarioCoin.confirmationsNeeded)) = 1)) ∧
    ((recursivelyGetBalances scenarioOracle scenarioCoin [] 100 []).1 =
      [pendingBalanceRequest none,
       confirmedBalanceRequest none (confirmedBlockTag 100 scenarioCoin.confirmationsNeeded)] ∧
     ∃ m, (recursivelyGetBalances scenarioOracle scenarioCoin [] 100 []).2 = .ok m ∧
       ¬ m = [] ∧ (jsMapGet? m none).isSome = true) :=
  ⟨by simp,
   claim_C10_termination_and_keys.1 scenarioOracle scenarioCoin
     (fun a => scenarioPendVal (some a)) (fun a => scenarioConfVal (some a)) 100
     ["A1", "A2"] (by simp)
     (fun a => scenarioOracle_pending (some a))
     (fun a => scenarioOracle_confirmed (some a)),
   claim_C10_termination_and_keys.2 scenarioOracle scenarioCoin 100 0 0
     (scenarioOracle_pending none) (scenarioOracle_confirmed none)⟩

/-- C4: In a network pass the per-wallet pending-transaction signal is true
exactly when the aggregated confirmed balance differs from the aggregated
predicted balance, hasPendingTransactions carries the disjunction of the
per-wallet signals, and the wallet coin balance is the sum of its addresses
predicted balances; in the scenario with addresses A1 (confirmed 5,
predicted 5) and A2 (confirmed 3, predicted 4), hasPendingTransactions is
true and the published coins of W are 9. -/
theorem claim_C4_pending_signal :
    (∀ (w : WalletWithBalance) (m : AddrMap),
      (computeWalletBalance w m).current =
        (w.addresses.map fun ad => ((jsMapGet? m (some ad.address)).getD {}).current).sum ∧
      (computeWalletBalance w m).predicted =
        (w.addresses.map fun ad => ((jsMapGet? m (some ad.address)).getD {}).predicted).sum) ∧
    (∀ (oracle : Oracle) (coin : CoinConfig) (saved : WBMap) (hp : Bool)
        (temporal : WBMap) (w : WalletWithBalance) (curBlock : Nat) (m : AddrMap)
        (reqs : List RpcRequest),
      oracle blockNumberRequest = .ok curBlock →
      recursivelyGetBalances oracle coin (w.addresses.map (fun a => a.address))
        curBlock [] = (reqs, .ok m) →
      (retrieveWalletBalance oracle coin saved hp temporal w false).2 =
        .ok (applyBalanceToWallet w (computeWalletBalance w m),
          decide (¬ (computeWalletBalance w m).current =
            (computeWalletBalance w m).predicted),
          jsMapSet temporal w.id (computeWalletBalance w m)) ∧
      (applyBalanceToWallet w (computeWalletBalance w m)).coins =
        (computeWalletBalance w m).predicted) ∧
    (∀ (oracle : Oracle) (coin : CoinConfig) (st : OperatorState)
        (wallets : List WalletBase) (r : RefreshResult),
      refreshBalances oracle coin st wallets false = .ok r →
      r.state.hasPendingTransactions = r.pendingFlags.any id) ∧
    (refreshBalances scenarioOracle scenarioCoin initialOperatorState
        [scenarioWalletBase] false = .ok scenarioResult ∧
      scenarioResult.state.hasPendingTransactions = true ∧
      scenarioResult.list.map (fun w => w.coins) = [(9 : ℚ)]) := by
  refine ⟨?_, ?_, ?_, scenarioRefresh, rfl, ?_⟩
  · intro w m
    exact ⟨computeWalletBalance_current w m, computeWalletBalance_predicted w m⟩
  · intro oracle coin saved hp temporal w curBlock m reqs hblock hrgb
    exact ⟨retrieveWalletBalance_net oracle coin saved hp temporal w curBlock m reqs
      hblock hrgb, rfl⟩
  · intro oracle coin st wallets r h
    exact (refreshBalances_net_fields oracle coin st wallets r h).2.2.2
  · simp [scenarioResult, scenarioPublishedWallet]

theorem claim_C4_witness :
    refreshBalances scenarioOracle scenarioCoin initialOperatorState
      [scenarioWalletBase] false = .ok scenarioResult ∧
    scenarioResult.state.hasPendingTransactions = scenarioResult.pendingFlags.any id :=
  ⟨scenarioRefresh,
   claim_C4_pending_signal.2.2.1 scenarioOracle scenarioCoin initialOperatorState
     [scenarioWalletBase] scenarioResult scenarioRefresh⟩

/-- C1 (amended): For every network-pass (quickMode false) reconciliation
step where the previously published wallet list and the freshly computed
list have equal length, pairwise equal wallet ids and address counts, and
only the address at one position differs in its coin value (the owning
wallet aggregate may differ as well), the operator keeps the published list
(no wholesale replacement), mutates only that address coin field and the
owning wallet aggregate coin field, leaves every other field of every
wallet and address unchanged, and emits the list exactly once. -/
theorem claim_C1_reconciliation_minimality (prev tmp : List WalletWithBalance)
    (i j : Nat) (wi vi : WalletWithBalance) (ai bi : AddressWithBalance)
    (hlen : prev.length = tmp.length)
    (hids : ∀ (k : Nat) (a b : WalletWithBalance),
      prev[k]? = some a → tmp[k]? = some b → a.id = b.id)
    (haddrlen : ∀ (k : Nat) (a b : WalletWithBalance),
      prev[k]? = some a → tmp[k]? = some b → a.addresses.length = b.addresses.length)
    (hpi : prev[i]? = some wi) (hti : tmp[i]? = some vi)
    (hai : wi.addresses[j]? = some ai) (hbi : vi.addresses[j]? = some bi)
    (hne : ¬ ai.coins = bi.coins)
    (hothers : ∀ (k : Nat) (a b : WalletWithBalance), ¬ k = i →
      prev[k]? = some a → tmp[k]? = some b →
      a.coins = b.coins ∧
      ∀ (l2 : Nat) (x y : AddressWithBalance),
        a.addresses[l2]? = some x → b.addresses[l2]? = some y → x.coins = y.coins)
    (hown : ∀ (l2 : Nat) (x y : AddressWithBalance), ¬ l2 = j →
      wi.addresses[l2]? = some x → vi.addresses[l2]? = some y → x.coins = y.coins) :
    (reconcile (some prev) tmp false).replaced = false ∧
    (reconcile (some prev) tmp false).emissions = 1 ∧
    (reconcile (some prev) tmp false).list.length = prev.length ∧
    (∀ (k : Nat) (a : WalletWithBalance), ¬ k = i → prev[k]? = some a →
      (reconcile (some prev) tmp false).list[k]? = some a) ∧
    ∃ wi2, (reconcile (some prev) tmp false).list[i]? = some wi2 ∧
      wi2.id = wi.id ∧ wi2.label = wi.label ∧ wi2.coins = vi.coins ∧
      wi2.addresses.length = wi.addresses.length ∧
      (∀ (l2 : Nat) (x : AddressWithBalance), ¬ l2 = j →
        wi.addresses[l2]? = some x → wi2.addresses[l2]? = some x) ∧
      wi2.addresses[j]? = some ⟨ai.address, bi.coins⟩ := by
  have hrec := reconcile_fine prev tmp hlen hids
  have hzipi : (List.zipWith diffWallet prev tmp)[i]? = some (diffWallet wi vi) := by
    rw [zipWith_getElem?, hpi, hti]
  have hleni : wi.addresses.length = vi.addresses.length := haddrlen i wi vi hpi hti
  have hchanged : (diffWallet wi vi).2 = true :=
    diffWallet_snd_true_of_addr_changed wi vi hleni j ai bi hai hbi hne
  have hany : (List.zipWith diffWallet prev tmp).any (fun p => p.2) = true := by
    rw [List.any_eq_true]
    exact ⟨diffWallet wi vi, List.getElem?_mem hzipi, hchanged⟩
  refine ⟨by rw [hrec], by rw [hrec]; simp [hany], ?_, ?_, ?_⟩
  · rw [hrec]
    simp only [List.length_map, List.length_zipWith]
    omega
  · intro k a hki hka
    have hk : k < prev.length := (List.getElem?_eq_some.mp hka).1
    have hk2 : k < tmp.length := by omega
    have hkb : tmp[k]? = some tmp[k] := List.getElem?_eq_getElem hk2
    obtain ⟨hcoins, haddrs⟩ := hothers k a tmp[k] hki hka hkb
    have hdiff : diffWallet a tmp[k] = (a, false) :=
      diffWallet_eq_of_no_change a tmp[k] hcoins (haddrlen k a tmp[k] hka hkb) haddrs
    rw [hrec]
    simp only [List.getElem?_map, zipWith_getElem?, hka, hkb]
    rw [hdiff]
    rfl
  · refine ⟨(diffWallet wi vi).1, ?_, diffWallet_fst_id wi vi, diffWallet_fst_label wi vi,
      diffWallet_fst_coins wi vi, diffWallet_fst_addresses_length wi vi hleni, ?_, ?_⟩
    · rw [hrec]
      simp only [List.getElem?_map, zipWith_getElem?, hpi, hti]
      rfl
    · intro l2 x hl2 hx
      have hl : l2 < wi.addresses.length := (List.getElem?_eq_some.mp hx).1
      have hl2v : l2 < vi.addresses.length := by omega
      have hy : vi.addresses[l2]? = some vi.addresses[l2] := List.getElem?_eq_getElem hl2v
      rw [diffWallet_fst_addresses_getElem? wi vi hleni]
      rw [hx, hy]
      show some (diffAddress x vi.addresses[l2]).1 = some x
      rw [diffAddress_eq_of_coins_eq x vi.addresses[l2] (hown l2 x vi.addresses[l2] hl2 hx hy)]
    · rw [diffWallet_fst_addresses_getElem? wi vi hleni]
      rw [hai, hbi]
      show some (diffAddress ai bi).1 = some ⟨ai.address, bi.coins⟩
      rw [diffAddress_eq_of_coins_ne ai bi hne]

/-- C1 as stated, quantified over every reconciliation step including quick
(quickMode true) ones, is false: a quick step satisfying all the hypotheses
still replaces the whole published list reference (source line 356 includes
forceQuickCompleteArrayUpdate in the wholesale-replacement condition). -/
theorem claim_C1_counterexample :
    ¬ (∀ (forceQuick : Bool) (prev tmp : List WalletWithBalance) (i j : Nat)
        (wi vi : WalletWithBalance) (ai bi : AddressWithBalance),
        prev.length = tmp.length →
        (∀ (k : Nat) (a b : WalletWithBalance),
          prev[k]? = some a → tmp[k]? = some b → a.id = b.id) →
        (∀ (k : Nat) (a b : WalletWithBalance),
          prev[k]? = some a → tmp[k]? = some b →
          a.addresses.length = b.addresses.length) →
        prev[i]? = some wi → tmp[i]? = some vi →
        wi.addresses[j]? = some ai → vi.addresses[j]? = some bi →
        ¬ ai.coins = bi.coins →
        (∀ (k : Nat) (a b : WalletWithBalance), ¬ k = i →
          prev[k]? = some a → tmp[k]? = some b →
          a.coins = b.coins ∧
          ∀ (l2 : Nat) (x y : AddressWithBalance),
            a.addresses[l2]? = some x → b.addresses[l2]? = some y → x.coins = y.coins) →
        (∀ (l2 : Nat) (x y : AddressWithBalance), ¬ l2 = j →
          wi.addresses[l2]? = some x → vi.addresses[l2]? = some y → x.coins = y.coins) →
        (reconcile (some prev) tmp forceQuick).replaced = false ∧
        (reconcile (some prev) tmp forceQuick).emissions = 1 ∧
        (reconcile (some prev) tmp forceQuick).list.length = prev.length ∧
        (∀ (k : Nat) (a : WalletWithBalance), ¬ k = i → prev[k]? = some a →
          (reconcile (some prev) tmp forceQuick).list[k]? = some a) ∧
        ∃ wi2, (reconcile (some prev) tmp forceQuick).list[i]? = some wi2 ∧
          wi2.id = wi.id ∧ wi2.label = wi.label ∧ wi2.coins = vi.coins ∧
          wi2.addresses.length = wi.addresses.length ∧
          (∀ (l2 : Nat) (x : AddressWithBalance), ¬ l2 = j →
            wi.addresses[l2]? = some x → wi2.addresses[l2]? = some x) ∧
          wi2.addresses[j]? = some ⟨ai.address, bi.coins⟩) := by
  intro hclaim
  have h := hclaim true
    [⟨"w1", "L", 5, [⟨"a1", 5⟩]⟩] [⟨"w1", "L", 6, [⟨"a1", 6⟩]⟩] 0 0
    ⟨"w1", "L", 5, [⟨"a1", 5⟩]⟩ ⟨"w1", "L", 6, [⟨"a1", 6⟩]⟩ ⟨"a1", 5⟩ ⟨"a1", 6⟩
    rfl
    (by
      intro k a b ha hb
      rcases k with _ | k
      · simp only [List.getElem?_cons_zero, Option.some.injEq] at ha hb
        subst ha
        subst hb
        rfl
      · simp at ha)
    (by
      intro k a b ha hb
      rcases k with _ | k
      · simp only [List.getElem?_cons_zero, Option.some.injEq] at ha hb
        subst ha
        subst hb
        rfl
      · simp at ha)
    rfl rfl rfl rfl
    (by norm_num)
    (by
      intro k a b hki hka hkb
      rcases k with _ | k
      · exact absurd rfl hki
      · simp at hka)
    (by
      intro l2 x y hl2 hx hy
      rcases l2 with _ | l2
      · exact absurd rfl hl2
      · simp at hx)
  have hrep : (reconcile (some [(⟨"w1", "L", 5, [⟨"a1", 5⟩]⟩ : WalletWithBalance)])
      [⟨"w1", "L", 6, [⟨"a1", 6⟩]⟩] true).replaced = true := by
    rw [reconcile_coarse _ _ true (Or.inl rfl)]
  rw [h.1] at hrep
  exact Bool.false_ne_true hrep

theorem claim_C1_witness :
    (¬ ((5 : ℚ) = 6)) ∧
    ((reconcile (some [(⟨"w1", "L", 5, [⟨"a1", 5⟩]⟩ : WalletWithBalance)])
        [⟨"w1", "L", 6, [⟨"a1", 6⟩]⟩] false).replaced = false ∧
     (reconcile (some [(⟨"w1", "L", 5, [⟨"a1", 5⟩]⟩ : WalletWithBalance)])
        [⟨"w1", "L", 6, [⟨"a1", 6⟩]⟩] false).emissions = 1 ∧
     (reconcile (some [(⟨"w1", "L", 5, [⟨"a1", 5⟩]⟩ : WalletWithBalance)])
        [⟨"w1", "L", 6, [⟨"a1", 6⟩]⟩] false).list.length =
       [(⟨"w1", "L", 5, [⟨"a1", 5⟩]⟩ : WalletWithBalance)].length ∧
     (∀ (k : Nat) (a : WalletWithBalance), ¬ k = 0 →
        [(⟨"w1", "L", 5, [⟨"a1", 5⟩]⟩ : WalletWithBalance)][k]? = some a →
        (reconcile (some [(⟨"w1", "L", 5, [⟨"a1", 5⟩]⟩ : WalletWithBalance)])
          [⟨"w1", "L", 6, [⟨"a1", 6⟩]⟩] false).list[k]? = some a) ∧
     ∃ wi2, (reconcile (some [(⟨"w1", "L", 5, [⟨"a1", 5⟩]⟩ : WalletWithBalance)])
          [⟨"w1", "L", 6, [⟨"a1", 6⟩]⟩] false).list[0]? = some wi2 ∧
        wi2.id = "w1" ∧ wi2.label = "L" ∧ wi2.coins = 6 ∧
        wi2.addresses.length = 1 ∧
        (∀ (l2 : Nat) (x : AddressWithBalance), ¬ l2 = 0 →
          [(⟨"a1", (5 : ℚ)⟩ : AddressWithBalance)][l2]? = some x →
          wi2.addresses[l2]? = some x) ∧
        wi2.addresses[0]? = some ⟨"a1", 6⟩) :=
  ⟨by norm_num,
   claim_C1_reconciliation_minimality
     [⟨"w1", "L", 5, [⟨"a1", 5⟩]⟩] [⟨"w1", "L", 6, [⟨"a1", 6⟩]⟩] 0 0
     ⟨"w1", "L", 5, [⟨"a1", 5⟩]⟩ ⟨"w1", "L", 6, [⟨"a1", 6⟩]⟩ ⟨"a1", 5⟩ ⟨"a1", 6⟩
     rfl
     (by
      intro k a b ha hb
      rcases k with _ | k
      · simp only [List.getElem?_cons_zero, Option.some.injEq] at ha hb
        subst ha
        subst hb
        rfl
      · simp at ha)
     (by
      intro k a b ha hb
      rcases k with _ | k
      · simp only [List.getElem?_cons_zero, Option.some.injEq] at ha hb
        subst ha
        subst hb
        rfl
      · simp at ha)
     rfl rfl rfl rfl
     (by norm_num)
     (by
      intro k a b hki hka hkb
      rcases k with _ | k
      · exact absurd rfl hki
      · simp at hka)
     (by
      intro l2 x y hl2 hx hy
      rcases l2 with _ | l2
      · exact absurd rfl hl2
      · simp at hx)⟩

end MulticoinWallet
